import Mathlib

/-!
Verification of the floating-point software model in verif/lib of the hdl
repository (fp_model.py and fp16_model.py): the GRS rounding decision,
the width-generic adder fp_add, the dedicated fp16 adder fp16_add_ex, and
the per-width multipliers.  Bit patterns are embedded as Nat, exponent
arithmetic as Int where the Python code can go negative.  Python integer
division, shifting and masking on non-negative values map directly to the
corresponding Nat operations.
-/

set_option maxHeartbeats 1000000

namespace HdlFp

/-- Rounding-mode encodings, matching grs_round.vh and the Python constants. -/
def RNE : Nat := 0

/-- Round towards zero. -/
def RTZ : Nat := 1

/-- Round towards positive infinity. -/
def RPI : Nat := 2

/-- Round towards negative infinity. -/
def RNI : Nat := 3

/-- Round to nearest, ties away from zero. -/
def RNA : Nat := 4

/-- Model of grs_round (fp_model.py lines 415-467).  The Python guard
`shift_amount <= 0` on the integer `input_width - output_width` is the
condition `input_width ≤ output_width`; inside the other branch the
difference is positive, so Nat subtraction agrees with Python.  Python
truthiness of `(value_in & mask) != 0` is made explicit. -/
def grs_round (value_in sign_in mode input_width output_width : Nat) : Nat :=
  if input_width ≤ output_width then value_in
  else
    let k := input_width - output_width
    let lsb := (value_in >>> k) &&& 1
    let g := if 1 ≤ k then (value_in >>> (k - 1)) &&& 1 else 0
    let r := if 2 ≤ k then (value_in >>> (k - 2)) &&& 1 else 0
    let s := if 3 ≤ k then (if value_in &&& ((1 <<< (k - 2)) - 1) ≠ 0 then 1 else 0) else 0
    let inexact := g ||| r ||| s
    if mode = RNE then g &&& (r ||| s ||| lsb)
    else if mode = RTZ then 0
    else if mode = RPI then (1 - sign_in) &&& inexact
    else if mode = RNI then sign_in &&& inexact
    else if mode = RNA then g
    else 0

/-- Index of the most significant set bit as an Int, scanning indices below
`fuel` from the top; -1 when no bit below `fuel` is set.  For n < 2 ^ fuel
this equals the Python `n.bit_length() - 1`; every call site passes a fuel
that bounds its argument. -/
def topBitIdx : Nat → Nat → Int
  | 0, _ => -1
  | fuel + 1, n => if (n >>> fuel) &&& 1 = 1 then (fuel : Int) else topBitIdx fuel n

/-- Alignment and add/subtract steps of fp_add (fp_model.py lines 578-601):
shift the operand with the smaller effective exponent, then combine the
aligned mantissas; returns (res_sign, res_mant, res_exp). -/
def alignAddSub (P : Nat) (sign_a : Nat) (eff_exp_a : Int) (full_mant_a : Nat)
    (sign_b : Nat) (eff_exp_b : Int) (full_mant_b : Nat) : Nat × Nat × Int :=
  let mant_a_aligned := full_mant_a <<< P
  let mant_b_aligned := full_mant_b <<< P
  let exp_diff := eff_exp_a - eff_exp_b
  let s : Nat × Nat × Int :=
    if exp_diff > 0 then (mant_a_aligned, mant_b_aligned >>> exp_diff.toNat, eff_exp_a)
    else (mant_a_aligned >>> (-exp_diff).toNat, mant_b_aligned, eff_exp_b)
  let ma := s.1
  let mb := s.2.1
  let res_exp := s.2.2
  if sign_a ≠ sign_b then
    if ma ≥ mb then (sign_a, ma - mb, res_exp) else (sign_b, mb - ma, res_exp)
  else (sign_a, ma + mb, res_exp)

/-- Normalization and rounding steps of fp_add (fp_model.py lines 607-643):
locate the msb, shift the implicit bit to position ALIGN_MANT_W - 1, feed the
low bits to grs_round, apply the increment and the possible mantissa-overflow
carry; returns (res_sign, res_exp, rounded_mant_no_implicit).  The Python
`bit_length() - 1` is topBitIdx with fuel ALIGN_MANT_W + 1, a bound on the
combined mantissa at every call site. -/
def normRound (MANT_W P rm : Nat) (res_sign res_mant0 : Nat) (res_exp0 : Int) :
    Nat × Int × Nat :=
  let ALIGN_MANT_W := MANT_W + 1 + P
  let msb_pos : Int := if res_mant0 > 0 then topBitIdx (ALIGN_MANT_W + 1) res_mant0 else -1
  let shift : Int := (ALIGN_MANT_W : Int) - 1 - msb_pos
  let res_mant := if shift > 0 then res_mant0 <<< shift.toNat else res_mant0 >>> (-shift).toNat
  let res_exp := res_exp0 - shift
  let rounder_input_width := ALIGN_MANT_W - 1
  let rounder_input := res_mant &&& ((1 <<< rounder_input_width) - 1)
  let increment := grs_round rounder_input res_sign rm rounder_input_width MANT_W
  let rounded := (rounder_input >>> (rounder_input_width - MANT_W)) + increment
  if rounded >>> MANT_W ≠ 0 then (res_sign, res_exp + 1, rounded >>> 1)
  else (res_sign, res_exp, rounded)

/-- Overflow/underflow finalization and packing of fp_add (fp_model.py lines
645-661): exponent at or above all-ones becomes Infinity, at or below zero is
flushed to zero, otherwise the rounded mantissa is masked and packed. -/
def finalizePack (EXP_W MANT_W : Nat) (t : Nat × Int × Nat) : Nat :=
  let res_sign := t.1
  let res_exp := t.2.1
  let final_mant0 := t.2.2 &&& ((1 <<< MANT_W) - 1)
  let EXP_ALL_ONES := (1 <<< EXP_W) - 1
  let fe : Nat × Nat :=
    if res_exp ≥ (EXP_ALL_ONES : Int) then (EXP_ALL_ONES, 0)
    else if res_exp ≤ 0 then (0, 0)
    else (res_exp.toNat, final_mant0)
  (res_sign <<< (EXP_W + MANT_W)) ||| (fe.1 <<< MANT_W) ||| fe.2

/-- Body of fp_add over decoded field widths (fp_model.py lines 500-662).
Operand decomposition, the special-case ladder for NaN/Infinity/Zero, and the
general path.  The Python result dictionary round-trips the packed integer
through numpy bytes unchanged, so the model returns the packed integer; the
canonical quiet NaN and the signed-zero patterns are built exactly as the
source builds them. -/
def fp_add_dec (EXP_W MANT_W P : Nat) (aInt bInt rm : Nat) : Nat :=
  let EXP_ALL_ONES := (1 <<< EXP_W) - 1
  let sign_a := (aInt >>> (EXP_W + MANT_W)) &&& 1
  let exp_a := (aInt >>> MANT_W) &&& EXP_ALL_ONES
  let mant_a := aInt &&& ((1 <<< MANT_W) - 1)
  let sign_b := (bInt >>> (EXP_W + MANT_W)) &&& 1
  let exp_b := (bInt >>> MANT_W) &&& EXP_ALL_ONES
  let mant_b := bInt &&& ((1 <<< MANT_W) - 1)
  if (exp_a = EXP_ALL_ONES ∧ mant_a ≠ 0) ∨ (exp_b = EXP_ALL_ONES ∧ mant_b ≠ 0) then
    (EXP_ALL_ONES <<< MANT_W) ||| (1 <<< (MANT_W - 1))
  else if (exp_a = EXP_ALL_ONES ∧ mant_a = 0) ∧ (exp_b = EXP_ALL_ONES ∧ mant_b = 0) ∧
      sign_a ≠ sign_b then
    (EXP_ALL_ONES <<< MANT_W) ||| (1 <<< (MANT_W - 1))
  else if exp_a = EXP_ALL_ONES ∧ mant_a = 0 then aInt
  else if exp_b = EXP_ALL_ONES ∧ mant_b = 0 then bInt
  else if (exp_a = 0 ∧ mant_a = 0) ∧ (exp_b = 0 ∧ mant_b = 0) then
    (if sign_a &&& sign_b ≠ 0 then 1 <<< (EXP_W + MANT_W) else 0)
  else if exp_a = 0 ∧ mant_a = 0 then bInt
  else if exp_b = 0 ∧ mant_b = 0 then aInt
  else
    let full_mant_a := ((if exp_a ≠ 0 then 1 else 0) <<< MANT_W) ||| mant_a
    let full_mant_b := ((if exp_b ≠ 0 then 1 else 0) <<< MANT_W) ||| mant_b
    let eff_exp_a : Int := if exp_a ≠ 0 then (exp_a : Int) else 1
    let eff_exp_b : Int := if exp_b ≠ 0 then (exp_b : Int) else 1
    let t := alignAddSub P sign_a eff_exp_a full_mant_a sign_b eff_exp_b full_mant_b
    if t.2.1 = 0 then
      (if rm = RNI ∧ sign_a ≠ sign_b then 1 <<< (EXP_W + MANT_W) else 0)
    else finalizePack EXP_W MANT_W (normRound MANT_W P rm t.1 t.2.1 t.2.2)

/-- Per-width constants of fp_add (fp_model.py lines 492-498): exponent field
width and default extra precision bits.  The bias and numpy dtype of the
Python table do not affect the returned bit pattern.  Widths outside
16/32/64 raise in Python and are never instantiated here. -/
def fpAddParams (width : Nat) : Nat × Nat :=
  if width = 16 then (5, 32) else if width = 32 then (8, 7) else (11, 7)

/-- Model of fp_add (fp_model.py lines 470-662); the result is the packed
W-bit pattern.  Python `precision_bits or default` treats both None and 0 as
the per-width default. -/
def fp_add (width aInt bInt rm : Nat) (precision_bits : Option Nat) : Nat :=
  let ps := fpAddParams width
  let P := match precision_bits with
    | some p => if p = 0 then ps.2 else p
    | none => ps.2
  fp_add_dec ps.1 (width - 1 - ps.1) P aInt bInt rm

/-- NaN bit-pattern test on the decoded fields, as computed by the is_nan
flags of fp_add (exponent all-ones, mantissa nonzero). -/
def isNaNPat (EXP_W MANT_W x : Nat) : Prop :=
  (x >>> MANT_W) &&& ((1 <<< EXP_W) - 1) = (1 <<< EXP_W) - 1 ∧
    x &&& ((1 <<< MANT_W) - 1) ≠ 0

/-- Infinity bit-pattern test (exponent all-ones, mantissa zero). -/
def isInfPat (EXP_W MANT_W x : Nat) : Prop :=
  (x >>> MANT_W) &&& ((1 <<< EXP_W) - 1) = (1 <<< EXP_W) - 1 ∧
    x &&& ((1 <<< MANT_W) - 1) = 0

/-- Zero bit-pattern test (exponent zero, mantissa zero). -/
def isZeroPat (EXP_W MANT_W x : Nat) : Prop :=
  (x >>> MANT_W) &&& ((1 <<< EXP_W) - 1) = 0 ∧ x &&& ((1 <<< MANT_W) - 1) = 0

/-- Subnormal bit-pattern test (exponent zero, mantissa nonzero). -/
def isSubnormal (EXP_W MANT_W x : Nat) : Prop :=
  (x >>> MANT_W) &&& ((1 <<< EXP_W) - 1) = 0 ∧ x &&& ((1 <<< MANT_W) - 1) ≠ 0

instance (E M x : Nat) : Decidable (isNaNPat E M x) := by
  unfold isNaNPat; infer_instance

instance (E M x : Nat) : Decidable (isInfPat E M x) := by
  unfold isInfPat; infer_instance

instance (E M x : Nat) : Decidable (isZeroPat E M x) := by
  unfold isZeroPat; infer_instance

instance (E M x : Nat) : Decidable (isSubnormal E M x) := by
  unfold isSubnormal; infer_instance

/-- The (res_sign, res_mant, res_exp) value produced by the decode, implicit
bit, alignment and combine steps of the general path of fp_add. -/
def fp_add_aligned (EXP_W MANT_W P : Nat) (aInt bInt : Nat) : Nat × Nat × Int :=
  let EXP_ALL_ONES := (1 <<< EXP_W) - 1
  let sign_a := (aInt >>> (EXP_W + MANT_W)) &&& 1
  let exp_a := (aInt >>> MANT_W) &&& EXP_ALL_ONES
  let mant_a := aInt &&& ((1 <<< MANT_W) - 1)
  let sign_b := (bInt >>> (EXP_W + MANT_W)) &&& 1
  let exp_b := (bInt >>> MANT_W) &&& EXP_ALL_ONES
  let mant_b := bInt &&& ((1 <<< MANT_W) - 1)
  let full_mant_a := ((if exp_a ≠ 0 then 1 else 0) <<< MANT_W) ||| mant_a
  let full_mant_b := ((if exp_b ≠ 0 then 1 else 0) <<< MANT_W) ||| mant_b
  let eff_exp_a : Int := if exp_a ≠ 0 then (exp_a : Int) else 1
  let eff_exp_b : Int := if exp_b ≠ 0 then (exp_b : Int) else 1
  alignAddSub P sign_a eff_exp_a full_mant_a sign_b eff_exp_b full_mant_b

/-- The (res_sign, res_exp, rounded_mant) value entering the final
overflow/underflow checks of fp_add, i.e. the state after normalization,
GRS rounding and the rounding-carry adjustment. -/
def fp_add_triple (EXP_W MANT_W P rm : Nat) (aInt bInt : Nat) : Nat × Int × Nat :=
  let t := fp_add_aligned EXP_W MANT_W P aInt bInt
  normRound MANT_W P rm t.1 t.2.1 t.2.2

/-- Model of grs_round from fp16_model.py lines 218-270, which is a verbatim
copy of the fp_model.py function; embedded separately so the dedicated fp16
adder is modelled from its own source file. -/
def grs_round16 (value_in sign_in mode input_width output_width : Nat) : Nat :=
  if input_width ≤ output_width then value_in
  else
    let k := input_width - output_width
    let lsb := (value_in >>> k) &&& 1
    let g := if 1 ≤ k then (value_in >>> (k - 1)) &&& 1 else 0
    let r := if 2 ≤ k then (value_in >>> (k - 2)) &&& 1 else 0
    let s := if 3 ≤ k then (if value_in &&& ((1 <<< (k - 2)) - 1) ≠ 0 then 1 else 0) else 0
    let inexact := g ||| r ||| s
    if mode = RNE then g &&& (r ||| s ||| lsb)
    else if mode = RTZ then 0
    else if mode = RPI then (1 - sign_in) &&& inexact
    else if mode = RNI then sign_in &&& inexact
    else if mode = RNA then g
    else 0

/-- Model of fp16_add_ex (fp16_model.py lines 330-474): the dedicated
16-bit adder with configurable extra precision, written against the fp16
constants of its source (exponent width 5, mantissa width 10, max exponent
31).  `np.float16(np.nan)` is the bit pattern 0x7e00 and the numpy
round-trips of the early returns are identities on 16-bit patterns. -/
def fp16_add_ex (aInt bInt rm precision_bits : Nat) : Nat :=
  let sign_a := (aInt >>> 15) &&& 1
  let exp_a := (aInt >>> 10) &&& 0x1F
  let mant_a := aInt &&& 0x3FF
  let sign_b := (bInt >>> 15) &&& 1
  let exp_b := (bInt >>> 10) &&& 0x1F
  let mant_b := bInt &&& 0x3FF
  if (exp_a = 31 ∧ mant_a ≠ 0) ∨ (exp_b = 31 ∧ mant_b ≠ 0) then 0x7E00
  else if (exp_a = 31 ∧ mant_a = 0) ∧ (exp_b = 31 ∧ mant_b = 0) ∧ sign_a ≠ sign_b then
    0x7E00
  else if exp_a = 31 ∧ mant_a = 0 then aInt
  else if exp_b = 31 ∧ mant_b = 0 then bInt
  else if (exp_a = 0 ∧ mant_a = 0) ∧ (exp_b = 0 ∧ mant_b = 0) then
    (if sign_a &&& sign_b ≠ 0 then 0x8000 else 0)
  else if exp_a = 0 ∧ mant_a = 0 then bInt
  else if exp_b = 0 ∧ mant_b = 0 then aInt
  else
    let full_mant_a := ((if exp_a ≠ 0 then 1 else 0) <<< 10) ||| mant_a
    let full_mant_b := ((if exp_b ≠ 0 then 1 else 0) <<< 10) ||| mant_b
    let eff_exp_a : Int := if exp_a ≠ 0 then (exp_a : Int) else 1
    let eff_exp_b : Int := if exp_b ≠ 0 then (exp_b : Int) else 1
    let mant_a_aligned := full_mant_a <<< precision_bits
    let mant_b_aligned := full_mant_b <<< precision_bits
    let exp_diff := eff_exp_a - eff_exp_b
    let s3 : Nat × Nat × Int :=
      if exp_diff > 0 then (mant_a_aligned, mant_b_aligned >>> exp_diff.toNat, eff_exp_a)
      else (mant_a_aligned >>> (-exp_diff).toNat, mant_b_aligned, eff_exp_b)
    let t : Nat × Nat × Int :=
      if sign_a ≠ sign_b then
        if s3.1 ≥ s3.2.1 then (sign_a, s3.1 - s3.2.1, s3.2.2)
        else (sign_b, s3.2.1 - s3.1, s3.2.2)
      else (sign_a, s3.1 + s3.2.1, s3.2.2)
    if t.2.1 = 0 then (if rm = RNI ∧ sign_a ≠ sign_b then 0x8000 else 0)
    else
      let align_mant_w := 10 + 1 + precision_bits
      let msb_pos : Int := if t.2.1 > 0 then topBitIdx (align_mant_w + 1) t.2.1 else -1
      let shift : Int := (align_mant_w : Int) - 1 - msb_pos
      let res_mant := if shift > 0 then t.2.1 <<< shift.toNat else t.2.1 >>> (-shift).toNat
      let res_exp := t.2.2 - shift
      let rounder_input_width := align_mant_w - 1
      let rounder_input := res_mant &&& ((1 <<< rounder_input_width) - 1)
      let increment := grs_round16 rounder_input t.1 rm rounder_input_width 10
      let rounded := (rounder_input >>> (rounder_input_width - 10)) + increment
      let u : Nat × Int × Nat :=
        if rounded >>> 10 ≠ 0 then (t.1, res_exp + 1, rounded >>> 1)
        else (t.1, res_exp, rounded)
      let final_mant0 := u.2.2 &&& ((1 <<< 10) - 1)
      let fe : Nat × Nat :=
        if u.2.1 ≥ (((1 <<< 5) - 1 : Nat) : Int) then ((1 <<< 5) - 1, 0)
        else if u.2.1 ≤ 0 then (0, 0)
        else (u.2.1.toNat, final_mant0)
      (u.1 <<< 15) ||| (fe.1 <<< 10) ||| fe.2

/-- Round-to-nearest-even of a magnitude s0 * 2 ^ e to the ulp weight
2 ^ u: an exact left shift when nothing is dropped, otherwise truncation
plus the nearest-even increment from the guard, retained-lsb and sticky
bits. -/
def rneScaled (s0 : Nat) (e u : Int) : Nat :=
  if e ≥ u then s0 <<< (e - u).toNat
  else
    let k := (u - e).toNat
    let g := (s0 >>> (k - 1)) &&& 1
    let lsbb := (s0 >>> k) &&& 1
    let sticky := s0 &&& ((1 <<< (k - 1)) - 1)
    (s0 >>> k) + (if g = 1 ∧ (lsbb = 1 ∨ sticky ≠ 0) then 1 else 0)

/-- Encoding step shared by roundRNE: take a rounded scaled significand t at
ulp weight 2 ^ u, carry a significand overflow into the exponent, then
either saturate to Infinity or pack exponent and fraction (the unified
formula covers normal and subnormal results). -/
def roundRNEcore (E M : Nat) (t : Nat) (u : Int) : Nat :=
  let bias : Int := ((1 <<< (E - 1)) - 1 : Nat)
  let tu : Nat × Int := if t = 1 <<< (M + 1) then (1 <<< M, u + 1) else (t, u)
  let expField : Int := tu.2 + M + bias
  if expField ≥ (((1 <<< E) - 1 : Nat) : Int) then ((1 <<< E) - 1) <<< M
  else (expField.toNat <<< M) + tu.1 - (1 <<< M)

/-- Correctly rounded round-to-nearest-even encoding of the magnitude
s0 * 2 ^ e into an IEEE binary format with E exponent bits and M fraction
bits (sign handled by the caller), including subnormal results and overflow
to Infinity.  This is the semantics of the host IEEE arithmetic the Python
model leans on: numpy float32/float64 multiplication and the correctly
rounded CPython Decimal-to-float conversion all produce exactly this
encoding of the exact value.  Valid for s0 < 2 ^ (2 * M + 8), which every
call site satisfies. -/
def roundRNE (E M : Nat) (s0 : Nat) (e : Int) : Nat :=
  if s0 = 0 then 0
  else
    let bias : Int := ((1 <<< (E - 1)) - 1 : Nat)
    let p : Int := topBitIdx (2 * M + 8) s0
    let u : Int := max (p + e - M) (1 - bias - M)
    roundRNEcore E M (rneScaled s0 e u) u

/-- Model of the host IEEE multiply on bit patterns with E exponent and M
fraction bits, as numpy executes it on the x86-64 verification platform: a
NaN first operand is returned quieted, else a NaN second operand quieted;
Infinity times zero gives the negative default quiet NaN (the x86 real
indefinite); Infinity times anything else keeps the XOR of the signs; a zero
operand gives the signed zero; finite nonzero products are the exact
significand product rounded to nearest even. -/
def npMul (E M : Nat) (a b : Nat) : Nat :=
  let ones := (1 <<< E) - 1
  let sign_a := (a >>> (E + M)) &&& 1
  let exp_a := (a >>> M) &&& ones
  let frac_a := a &&& ((1 <<< M) - 1)
  let sign_b := (b >>> (E + M)) &&& 1
  let exp_b := (b >>> M) &&& ones
  let frac_b := b &&& ((1 <<< M) - 1)
  if exp_a = ones ∧ frac_a ≠ 0 then a ||| (1 <<< (M - 1))
  else if exp_b = ones ∧ frac_b ≠ 0 then b ||| (1 <<< (M - 1))
  else if exp_a = ones then
    (if exp_b = 0 ∧ frac_b = 0 then
      (1 <<< (E + M)) ||| (ones <<< M) ||| (1 <<< (M - 1))
     else ((sign_a ^^^ sign_b) <<< (E + M)) ||| (ones <<< M))
  else if exp_b = ones then
    (if exp_a = 0 ∧ frac_a = 0 then
      (1 <<< (E + M)) ||| (ones <<< M) ||| (1 <<< (M - 1))
     else ((sign_a ^^^ sign_b) <<< (E + M)) ||| (ones <<< M))
  else if (exp_a = 0 ∧ frac_a = 0) ∨ (exp_b = 0 ∧ frac_b = 0) then
    (sign_a ^^^ sign_b) <<< (E + M)
  else
    let bias : Int := ((1 <<< (E - 1)) - 1 : Nat)
    let sig_a := if exp_a = 0 then frac_a else (1 <<< M) ||| frac_a
    let ea : Int := (if exp_a = 0 then 1 else (exp_a : Int)) - bias - M
    let sig_b := if exp_b = 0 then frac_b else (1 <<< M) ||| frac_b
    let eb : Int := (if exp_b = 0 then 1 else (exp_b : Int)) - bias - M
    ((sign_a ^^^ sign_b) <<< (E + M)) ||| roundRNE E M (sig_a * sig_b) (ea + eb)

/-- The numpy half-to-float conversion (npy_halfbits_to_floatbits), applied
by `np.float32(np.float16(...))` in fp16_mul: NaN and Infinity keep the sign
and shift the payload up by 13 bits without quieting; finite fp16 values are
exactly representable in fp32, expressed through the exact RNE encoder. -/
def cvt16to32 (h : Nat) : Nat :=
  let s := (h >>> 15) &&& 1
  let e5 := (h >>> 10) &&& 0x1F
  let f := h &&& 0x3FF
  if e5 = 0x1F then (s <<< 31) ||| (0xFF <<< 23) ||| (f <<< 13)
  else if e5 = 0 then (s <<< 31) ||| roundRNE 8 23 f (-24)
  else (s <<< 31) ||| roundRNE 8 23 ((1 <<< 10) ||| f) ((e5 : Int) - 15 - 10)

/-- The C float-to-double conversion used by `np.float64(np.float32(...))`
in fp32_mul (cvtss2sd): sign and payload are preserved, signaling NaNs are
quieted, finite fp32 values convert exactly. -/
def cvt32to64 (x : Nat) : Nat :=
  let s := (x >>> 31) &&& 1
  let e8 := (x >>> 23) &&& 0xFF
  let f := x &&& 0x7FFFFF
  if e8 = 0xFF ∧ f ≠ 0 then (s <<< 63) ||| (0x7FF <<< 52) ||| ((f ||| (1 <<< 22)) <<< 29)
  else if e8 = 0xFF then (s <<< 63) ||| (0x7FF <<< 52)
  else if e8 = 0 then (s <<< 63) ||| roundRNE 11 52 f (-149)
  else (s <<< 63) ||| roundRNE 11 52 ((1 <<< 23) ||| f) ((e8 : Int) - 127 - 23)

/-- Model of round_fp32_to_fp16 (fp_model.py lines 55-142): bit-level
rounding of a float32 pattern to float16 under the given mode.  Python
truthiness of the mask values sign_bit, g, lsb and of the sticky flag is
written as explicit inequality with zero. -/
def round_fp32_to_fp16 (x rm : Nat) : Nat :=
  let sign_bit := (x >>> 16) &&& 0x8000
  let exp_32 := (x >>> 23) &&& 0xFF
  let mant_32 := x &&& 0x7FFFFF
  if exp_32 = 0xFF then sign_bit ||| 0x7C00 ||| (if mant_32 ≠ 0 then 0x200 else 0)
  else
    let exp_16 : Int := (exp_32 : Int) - 127 + 15
    if exp_16 ≥ 0x1F then
      (if rm = RNI then 0xFBFF
       else if rm = RTZ ∧ sign_bit ≠ 0 then 0xFBFF
       else sign_bit ||| 0x7C00)
    else if exp_16 ≤ 0 then
      (if exp_16 < -10 then
        (if rm = RPI ∧ sign_bit = 0 then 0x0001
         else if rm = RNI ∧ sign_bit ≠ 0 then 0x8001
         else sign_bit)
       else
        let mant := (mant_32 ||| 0x800000) >>> (1 - exp_16).toNat
        let lsb := mant &&& 0x2000
        let g := mant &&& 0x1000
        let mant_16 := mant >>> 13
        let mant_16 :=
          if (rm = RNE ∧ g ≠ 0 ∧ (mant &&& 0x0FFF ≠ 0 ∨ lsb ≠ 0)) ∨
             (rm = RNA ∧ g ≠ 0) ∨
             (rm = RPI ∧ sign_bit = 0 ∧ (g ≠ 0 ∨ mant &&& 0x0FFF ≠ 0)) ∨
             (rm = RNI ∧ sign_bit ≠ 0 ∧ (g ≠ 0 ∨ mant &&& 0x0FFF ≠ 0)) then
            mant_16 + 1
          else mant_16
        sign_bit ||| mant_16)
    else
      let lsb := mant_32 &&& 0x2000
      let g := mant_32 &&& 0x1000
      let mant_16 := mant_32 >>> 13
      let me : Nat × Int :=
        if (rm = RNE ∧ g ≠ 0 ∧ (mant_32 &&& 0x0FFF ≠ 0 ∨ lsb ≠ 0)) ∨
           (rm = RPI ∧ sign_bit = 0 ∧ (g ≠ 0 ∨ mant_32 &&& 0x0FFF ≠ 0)) ∨
           (rm = RNI ∧ sign_bit ≠ 0 ∧ (g ≠ 0 ∨ mant_32 &&& 0x0FFF ≠ 0)) ∨
           (rm = RNA ∧ g ≠ 0) then
          (let m2 := mant_16 + 1
           if m2 ≥ 0x0400 then
             (let m3 := m2 >>> 1
              let e2 := exp_16 + 1
              if e2 ≥ 0x1F then (0, 0x1F) else (m3, e2))
           else (m2, exp_16))
        else (mant_16, exp_16)
      sign_bit ||| (me.2.toNat <<< 10) ||| me.1

/-- Model of round_fp64_to_fp32 (fp_model.py lines 145-244): bit-level
rounding of a float64 pattern to float32 under the given mode. -/
def round_fp64_to_fp32 (x rm : Nat) : Nat :=
  let sign_bit_64 := (x >>> 63) &&& 1
  let exp_64 := (x >>> 52) &&& 0x7FF
  let mant_64 := x &&& 0xFFFFFFFFFFFFF
  let sign_bit_32 := sign_bit_64 <<< 31
  if exp_64 = 0x7FF then
    sign_bit_32 ||| (0xFF <<< 23) ||| (if mant_64 ≠ 0 then 1 <<< 22 else 0)
  else
    let exp_32 : Int := (exp_64 : Int) - 1023 + 127
    if exp_32 ≥ 0xFF then
      (if rm = RNI then 0xFF7FFFFF
       else if rm = RTZ ∧ sign_bit_64 ≠ 0 then 0xFF7FFFFF
       else sign_bit_32 ||| 0x7F800000)
    else if exp_32 ≤ 0 then
      (if 1 - exp_32 > 52 + 1 then
        (if rm = RPI ∧ sign_bit_64 = 0 then 0x00000001
         else if rm = RNI ∧ sign_bit_64 ≠ 0 then 0x80000001
         else sign_bit_32)
       else
        let mant := (mant_64 ||| (1 <<< 52)) >>> (1 - exp_32).toNat
        let lsb := (mant >>> 29) &&& 1
        let g := (mant >>> 28) &&& 1
        let mant_32 := mant >>> 29
        let mant_32 :=
          if (rm = RNE ∧ g ≠ 0 ∧ (mant &&& ((1 <<< 28) - 1) ≠ 0 ∨ lsb ≠ 0)) ∨
             (rm = RNA ∧ g ≠ 0) ∨
             (rm = RPI ∧ sign_bit_64 = 0 ∧ (g ≠ 0 ∨ mant &&& ((1 <<< 28) - 1) ≠ 0)) ∨
             (rm = RNI ∧ sign_bit_64 ≠ 0 ∧ (g ≠ 0 ∨ mant &&& ((1 <<< 28) - 1) ≠ 0)) then
            mant_32 + 1
          else mant_32
        sign_bit_32 ||| mant_32)
    else
      let lsb := (mant_64 >>> 29) &&& 1
      let g := (mant_64 >>> 28) &&& 1
      let mant_32 := mant_64 >>> 29
      let me : Nat × Int :=
        if (rm = RNE ∧ g ≠ 0 ∧ (mant_64 &&& ((1 <<< 28) - 1) ≠ 0 ∨ lsb ≠ 0)) ∨
           (rm = RPI ∧ sign_bit_64 = 0 ∧ (g ≠ 0 ∨ mant_64 &&& ((1 <<< 28) - 1) ≠ 0)) ∨
           (rm = RNI ∧ sign_bit_64 ≠ 0 ∧ (g ≠ 0 ∨ mant_64 &&& ((1 <<< 28) - 1) ≠ 0)) ∨
           (rm = RNA ∧ g ≠ 0) then
          (let m2 := mant_32 + 1
           if m2 ≥ 1 <<< 23 then
             (let m3 := m2 >>> 1
              let e2 := exp_32 + 1
              if e2 ≥ 0xFF then (0, 0xFF) else (m3, e2))
           else (m2, exp_32))
        else (mant_32, exp_32)
      sign_bit_32 ||| (me.2.toNat <<< 23) ||| me.1

/-- Model of fp16_mul (fp_model.py lines 665-685): parse both operands as
float16, promote exactly to float32, multiply with the host float32
multiply, round back with round_fp32_to_fp16. -/
def fp16_mul (a b rm : Nat) : Nat :=
  round_fp32_to_fp16 (npMul 8 23 (cvt16to32 a) (cvt16to32 b)) rm

/-- Model of fp32_mul (fp_model.py lines 688-708): promote exactly to
float64, multiply with the host float64 multiply, round back with
round_fp64_to_fp32. -/
def fp32_mul (a b rm : Nat) : Nat :=
  round_fp64_to_fp32 (npMul 11 52 (cvt32to64 a) (cvt32to64 b)) rm

/-- Model of fp64_mul (fp_model.py lines 711-744).  Non-finite operands are
handed to the host float64 multiply.  Finite operands are multiplied exactly
as 40-digit Decimals and converted with the correctly rounded CPython float
conversion, which encodes the exact product to nearest-even: the same host
multiply semantics.  The rm parameter is never used on either path (the long
comment block of round_decimal_to_fp64, lines 276-339, documents that it is
ignored and the function returns np.float64(val)).  A finite product whose
magnitude overflows float64 raises OverflowError in CPython; the model
returns the RNE overflow result (Infinity) there, a corner no claim
touches. -/
def fp64_mul (a b _rm : Nat) : Nat :=
  npMul 11 52 a b

/-- Model of fp_mul (fp_model.py lines 747-757): width dispatch.  Other
widths raise in Python and are never instantiated. -/
def fp_mul (width a b rm : Nat) : Nat :=
  if width = 16 then fp16_mul a b rm
  else if width = 32 then fp32_mul a b rm
  else fp64_mul a b rm

/-- C5: the claim says that with `input_width <= output_width` the rounding
decision function returns false (0).  The code instead returns `value_in`
unchanged, contradicting its own docstring (which promises a 0/1 increment
flag): at value 5 with equal widths it returns 5. -/
theorem grs_round_degenerate_returns_value :
    grs_round 5 0 RNE 4 4 = 5 ∧ grs_round 5 0 RNE 4 4 ≠ 0 := by
  constructor <;> decide

/-- C6: for `input_width > output_width`, with lsb the retained boundary bit,
g the first dropped bit, r the second dropped bit, s the OR of the remaining
dropped bits and inexact = g or r or s, the increment decision of grs_round
is: RNE g and (r or s or lsb); RTZ false; RPI inexact when the sign is
positive; RNI inexact when the sign is negative; RNA g. -/
theorem grs_round_increment_table (v s m iw ow : Nat) (hlt : ow < iw)
    (hs : s ≤ 1) (hm : m < 5) :
    grs_round v s m iw ow =
      (let k := iw - ow
       let lsb := v / 2 ^ k % 2
       let g := v / 2 ^ (k - 1) % 2
       let r := if 2 ≤ k then v / 2 ^ (k - 2) % 2 else 0
       let stk := if 3 ≤ k then (if v % 2 ^ (k - 2) = 0 then 0 else 1) else 0
       let inexact := g ||| r ||| stk
       if m = RNE then g &&& (r ||| stk ||| lsb)
       else if m = RTZ then 0
       else if m = RPI then (if s = 0 then inexact else 0)
       else if m = RNI then (if s = 1 then inexact else 0)
       else g) := by
  rw [grs_round, if_neg (by omega)]
  simp only [Nat.shiftRight_eq_div_pow, Nat.and_one_is_mod, Nat.shiftLeft_eq, one_mul,
    Nat.and_pow_two_sub_one_eq_mod, if_pos (show 1 ≤ iw - ow by omega), ite_not]
  have hOr : ∀ a b : Nat, a < 2 → b < 2 → a ||| b < 2 := by
    intro a b ha hb
    interval_cases a <;> interval_cases b <;> decide
  have hG2 : v / 2 ^ (iw - ow - 1) % 2 < 2 := Nat.mod_lt _ (by decide)
  have hR2 : (if 2 ≤ iw - ow then v / 2 ^ (iw - ow - 2) % 2 else 0) < 2 := by
    split
    · exact Nat.mod_lt _ (by decide)
    · decide
  have hS2 : (if 3 ≤ iw - ow then (if v % 2 ^ (iw - ow - 2) = 0 then 0 else 1) else 0) < 2 := by
    split
    · split <;> decide
    · decide
  have hI : (v / 2 ^ (iw - ow - 1) % 2 |||
      (if 2 ≤ iw - ow then v / 2 ^ (iw - ow - 2) % 2 else 0) |||
      (if 3 ≤ iw - ow then (if v % 2 ^ (iw - ow - 2) = 0 then 0 else 1) else 0)) < 2 :=
    hOr _ _ (hOr _ _ hG2 hR2) hS2
  interval_cases m
  · rfl
  · rfl
  · show (1 - s) &&& _ = if s = 0 then _ else 0
    interval_cases s
    · rw [if_pos rfl, show (1 : Nat) - 0 = 1 from rfl, Nat.and_comm, Nat.and_one_is_mod]
      exact Nat.mod_eq_of_lt hI
    · rw [if_neg (show ¬(1 = 0) by decide), show (1 : Nat) - 1 = 0 from rfl, Nat.zero_and]
  · show s &&& _ = if s = 1 then _ else 0
    interval_cases s
    · rw [if_neg (show ¬(0 = 1) by decide), Nat.zero_and]
    · rw [if_pos rfl, Nat.and_comm, Nat.and_one_is_mod]
      exact Nat.mod_eq_of_lt hI
  · rfl

/-- Witness for the C6 table at a concrete input: value 0b10110 rounded from
width 5 to width 2 under RNE with positive sign increments. -/
theorem grs_round_increment_table_witness :
    2 < 5 ∧ (0 : Nat) ≤ 1 ∧ 0 < 5 ∧ grs_round 22 0 0 5 2 = 1 := by
  refine ⟨by decide, by decide, by decide, ?_⟩
  rw [grs_round_increment_table 22 0 0 5 2 (by decide) (by decide) (by decide)]
  decide

/-- C9: the width-16 addition of 0xc540 and 0x2cab under RNE returns 0xc52d,
exactly as the spec scenario states. -/
theorem fp_add16_scenario_c540_2cab : fp_add 16 0xc540 0x2cab RNE none = 0xc52d := by
  decide

/-- C1: the claim (and spec section 4.4 step 8) requires mode-dependent
clamping to the largest finite magnitude on overflow (RTZ or RNI on a
negative result, RNI on a positive result).  fp_add instead always saturates
to Infinity with the result sign: 0xfbff + 0xfbff under RTZ yields -Infinity
0xfc00 where the claim requires -max-finite 0xfbff, and 0x7bff + 0x7bff under
RNI yields +Infinity 0x7c00 where the claim requires +max-finite 0x7bff. -/
theorem fp_add_overflow_always_infinity :
    fp_add 16 0xfbff 0xfbff RTZ none = 0xfc00 ∧
    fp_add 16 0x7bff 0x7bff RNI none = 0x7c00 := by
  constructor <;> decide

/-- C3: the claim requires the both-zero case with opposite signs under RNI
to return negative zero.  The both-zero branch of fp_add returns the AND of
the signs for every mode, so +0 plus -0 under RNI returns +0 (0x0000), not
the claimed -0 (0x8000). -/
theorem fp_add_zero_zero_rni_positive :
    fp_add 16 0x0000 0x8000 RNI none = 0x0000 ∧
    fp_add 16 0x8000 0x0000 RNI none = 0x0000 := by
  constructor <;> decide

/-- A multiple of 2 ^ n ored with a value below 2 ^ n is their sum. -/
theorem lor_eq_add_of (n c b : Nat) (hb : b < 2 ^ n) :
    c * 2 ^ n ||| b = c * 2 ^ n + b := by
  rw [mul_comm c (2 ^ n)]
  exact (Nat.mul_add_lt_is_or hb c).symm

/-- Exponent and mantissa fields together stay below the sign-bit weight. -/
theorem ef_lt (E M e f : Nat) (he : e < 2 ^ E) (hf : f < 2 ^ M) :
    e * 2 ^ M + f < 2 ^ (E + M) := by
  rw [pow_add]
  calc e * 2 ^ M + f < e * 2 ^ M + 2 ^ M := Nat.add_lt_add_left hf _
    _ = (e + 1) * 2 ^ M := by ring
    _ ≤ 2 ^ E * 2 ^ M := Nat.mul_le_mul_right _ (by omega)

/-- A packed sign/exponent/fraction pattern as plain arithmetic. -/
theorem pack3_eq (E M s e f : Nat) (he : e < 2 ^ E) (hf : f < 2 ^ M) :
    (s <<< (E + M)) ||| (e <<< M) ||| f = s * 2 ^ (E + M) + e * 2 ^ M + f := by
  rw [Nat.shiftLeft_eq, Nat.shiftLeft_eq]
  have hb : e * 2 ^ M < 2 ^ (E + M) := by
    have := ef_lt E M e 0 he (pow_pos (by omega) M)
    omega
  rw [lor_eq_add_of (E + M) s (e * 2 ^ M) hb]
  have h3 : s * 2 ^ (E + M) + e * 2 ^ M = (s * 2 ^ E + e) * 2 ^ M := by
    rw [pow_add]; ring
  rw [h3, lor_eq_add_of M (s * 2 ^ E + e) f hf]

/-- Sign-field extraction from a packed pattern. -/
theorem pack3_sign (E M s e f : Nat) (hs : s ≤ 1) (he : e < 2 ^ E) (hf : f < 2 ^ M) :
    (((s <<< (E + M)) ||| (e <<< M) ||| f) >>> (E + M)) &&& 1 = s := by
  rw [pack3_eq E M s e f he hf, Nat.shiftRight_eq_div_pow, Nat.and_one_is_mod]
  have h1 : s * 2 ^ (E + M) + e * 2 ^ M + f = 2 ^ (E + M) * s + (e * 2 ^ M + f) := by ring
  rw [h1, Nat.mul_add_div (pow_pos (by omega) (E + M)),
    Nat.div_eq_of_lt (ef_lt E M e f he hf), add_zero]
  exact Nat.mod_eq_of_lt (by omega)

/-- Exponent-field extraction from a packed pattern. -/
theorem pack3_exp (E M s e f : Nat) (he : e < 2 ^ E) (hf : f < 2 ^ M) :
    (((s <<< (E + M)) ||| (e <<< M) ||| f) >>> M) &&& ((1 <<< E) - 1) = e := by
  rw [pack3_eq E M s e f he hf, Nat.shiftRight_eq_div_pow, Nat.shiftLeft_eq, one_mul,
    Nat.and_pow_two_sub_one_eq_mod]
  have h1 : s * 2 ^ (E + M) + e * 2 ^ M + f = 2 ^ M * (s * 2 ^ E + e) + f := by
    rw [pow_add]; ring
  rw [h1, Nat.mul_add_div (pow_pos (by omega) M), Nat.div_eq_of_lt hf, add_zero]
  have h2 : s * 2 ^ E + e = 2 ^ E * s + e := by ring
  rw [h2, Nat.mul_add_mod]
  exact Nat.mod_eq_of_lt he

/-- Fraction-field extraction from a packed pattern. -/
theorem pack3_frac (E M s e f : Nat) (he : e < 2 ^ E) (hf : f < 2 ^ M) :
    ((s <<< (E + M)) ||| (e <<< M) ||| f) &&& ((1 <<< M) - 1) = f := by
  rw [pack3_eq E M s e f he hf, Nat.shiftLeft_eq, one_mul,
    Nat.and_pow_two_sub_one_eq_mod]
  have h1 : s * 2 ^ (E + M) + e * 2 ^ M + f = 2 ^ M * (s * 2 ^ E + e) + f := by
    rw [pow_add]; ring
  rw [h1, Nat.mul_add_mod]
  exact Nat.mod_eq_of_lt hf

/-- Masking with a low-bit mask keeps the value below the mask weight. -/
theorem and_mask_lt (x M : Nat) : x &&& ((1 <<< M) - 1) < 2 ^ M := by
  rw [Nat.shiftLeft_eq, one_mul, Nat.and_pow_two_sub_one_eq_mod]
  exact Nat.mod_lt _ (pow_pos (by omega) M)

/-- Masking with 1 keeps the value at most 1. -/
theorem and_one_le_one (x : Nat) : x &&& 1 ≤ 1 := by
  rw [Nat.and_one_is_mod]; omega

/-- On the general path, fp_add reduces to the combine stage followed by
either the cancellation zero or finalization of the rounded triple. -/
theorem fp_add_dec_general (E M P a b rm : Nat)
    (hna : ¬ isNaNPat E M a) (hnb : ¬ isNaNPat E M b)
    (hia : ¬ isInfPat E M a) (hib : ¬ isInfPat E M b)
    (hza : ¬ isZeroPat E M a) (hzb : ¬ isZeroPat E M b) :
    fp_add_dec E M P a b rm =
      if (fp_add_aligned E M P a b).2.1 = 0 then
        (if rm = RNI ∧ (a >>> (E + M)) &&& 1 ≠ (b >>> (E + M)) &&& 1 then 1 <<< (E + M)
         else 0)
      else finalizePack E M (fp_add_triple E M P rm a b) := by
  simp only [isNaNPat, isInfPat, isZeroPat] at hna hnb hia hib hza hzb
  simp only [fp_add_dec]
  rw [if_neg (by tauto), if_neg (by tauto), if_neg hia, if_neg hib, if_neg (by tauto),
    if_neg hza, if_neg hzb]
  rfl

/-- The sign produced by the combine stage is one of the operand signs. -/
theorem alignAddSub_sign_le (P sa : Nat) (ea : Int) (ma : Nat) (sb : Nat) (eb : Int)
    (mb : Nat) (hsa : sa ≤ 1) (hsb : sb ≤ 1) :
    (alignAddSub P sa ea ma sb eb mb).1 ≤ 1 := by
  simp only [alignAddSub]
  repeat' split
  all_goals simp_all

/-- Normalization and rounding do not change the sign component. -/
theorem normRound_sign (M P rm s mant : Nat) (e : Int) :
    (normRound M P rm s mant e).1 = s := by
  simp only [normRound]
  rw [apply_ite Prod.fst]
  simp

/-- The sign entering finalization is a single bit. -/
theorem fp_add_triple_sign_le (E M P rm a b : Nat) :
    (fp_add_triple E M P rm a b).1 ≤ 1 := by
  simp only [fp_add_triple, normRound_sign, fp_add_aligned]
  exact alignAddSub_sign_le _ _ _ _ _ _ _ (and_one_le_one _) (and_one_le_one _)

/-- On the general path with a nonzero combined mantissa, an exponent at or
below zero after rounding makes fp_add return the signed zero pattern. -/
theorem fp_add_dec_flush (E M P a b rm : Nat) (hE : 0 < E)
    (hna : ¬ isNaNPat E M a) (hnb : ¬ isNaNPat E M b)
    (hia : ¬ isInfPat E M a) (hib : ¬ isInfPat E M b)
    (hza : ¬ isZeroPat E M a) (hzb : ¬ isZeroPat E M b)
    (hm : (fp_add_aligned E M P a b).2.1 ≠ 0)
    (hexp : (fp_add_triple E M P rm a b).2.1 ≤ 0) :
    fp_add_dec E M P a b rm = (fp_add_triple E M P rm a b).1 <<< (E + M) := by
  rw [fp_add_dec_general E M P a b rm hna hnb hia hib hza hzb, if_neg hm]
  simp only [finalizePack]
  have hone : (2 : ℕ) ≤ 2 ^ E := by
    calc (2 : ℕ) = 2 ^ 1 := by norm_num
      _ ≤ 2 ^ E := Nat.pow_le_pow_right (by omega) (by omega)
  have hcast : (1 : Int) ≤ ((1 <<< E) - 1 : Nat) := by
    rw [Nat.shiftLeft_eq, one_mul]
    exact_mod_cast (by omega : 1 ≤ 2 ^ E - 1)
  rw [if_neg (by omega), if_pos hexp]
  simp [Nat.zero_shiftLeft]

/-- On the general path fp_add never returns a subnormal bit pattern. -/
theorem fp_add_dec_not_subnormal (E M P a b rm : Nat) (hE : 0 < E)
    (hna : ¬ isNaNPat E M a) (hnb : ¬ isNaNPat E M b)
    (hia : ¬ isInfPat E M a) (hib : ¬ isInfPat E M b)
    (hza : ¬ isZeroPat E M a) (hzb : ¬ isZeroPat E M b) :
    ¬ isSubnormal E M (fp_add_dec E M P a b rm) := by
  rw [fp_add_dec_general E M P a b rm hna hnb hia hib hza hzb]
  have hone : (2 : ℕ) ≤ 2 ^ E := by
    calc (2 : ℕ) = 2 ^ 1 := by norm_num
      _ ≤ 2 ^ E := Nat.pow_le_pow_right (by omega) (by omega)
  have honeE : 1 ≤ (1 <<< E) - 1 := by
    rw [Nat.shiftLeft_eq, one_mul]; omega
  by_cases h0 : (fp_add_aligned E M P a b).2.1 = 0
  · rw [if_pos h0]
    by_cases hrm : rm = RNI ∧ (a >>> (E + M)) &&& 1 ≠ (b >>> (E + M)) &&& 1
    · rw [if_pos hrm]
      rintro ⟨-, hmant⟩
      apply hmant
      rw [Nat.shiftLeft_eq, one_mul, Nat.shiftLeft_eq, one_mul,
        Nat.and_pow_two_sub_one_eq_mod, pow_add, Nat.mul_mod_left]
    · rw [if_neg hrm]
      rintro ⟨-, hmant⟩
      exact hmant (by simp)
  · rw [if_neg h0]
    simp only [finalizePack]
    split_ifs with h1 h2
    · rintro ⟨hexp, -⟩
      rw [pack3_exp E M _ _ _ (by rw [Nat.shiftLeft_eq, one_mul]; omega)
        (pow_pos (by omega) M)] at hexp
      omega
    · rintro ⟨-, hmant⟩
      exact hmant (pack3_frac E M _ _ _ (pow_pos (by omega) E) (pow_pos (by omega) M))
    · rintro ⟨hexp, -⟩
      have hcast : (1 : Int) ≤ ((1 <<< E) - 1 : Nat) := by
        rw [Nat.shiftLeft_eq, one_mul]
        exact_mod_cast (by omega : 1 ≤ 2 ^ E - 1)
      have hlt : (fp_add_triple E M P rm a b).2.1.toNat < 2 ^ E := by
        have h3 : ((fp_add_triple E M P rm a b).2.1 : Int) < ((1 <<< E) - 1 : Nat) := by
          omega
        have h4 : ((1 <<< E) - 1 : Nat) < 2 ^ E := by
          rw [Nat.shiftLeft_eq, one_mul]; omega
        omega
      rw [pack3_exp E M _ _ _ hlt (and_mask_lt _ _)] at hexp
      omega

/-- C7: for each supported width, on the general arithmetic path (no NaN,
Infinity or zero operand), whenever the exponent entering the final checks is
at or below zero the result is the signed zero of the arithmetic sign, and
the adder never returns a subnormal pattern on this path. -/
theorem fp_add_underflow_flush (W a b rm : Nat)
    (hW : W = 16 ∨ W = 32 ∨ W = 64)
    (hna : ¬ isNaNPat (fpAddParams W).1 (W - 1 - (fpAddParams W).1) a)
    (hnb : ¬ isNaNPat (fpAddParams W).1 (W - 1 - (fpAddParams W).1) b)
    (hia : ¬ isInfPat (fpAddParams W).1 (W - 1 - (fpAddParams W).1) a)
    (hib : ¬ isInfPat (fpAddParams W).1 (W - 1 - (fpAddParams W).1) b)
    (hza : ¬ isZeroPat (fpAddParams W).1 (W - 1 - (fpAddParams W).1) a)
    (hzb : ¬ isZeroPat (fpAddParams W).1 (W - 1 - (fpAddParams W).1) b) :
    ((fp_add_aligned (fpAddParams W).1 (W - 1 - (fpAddParams W).1) (fpAddParams W).2
        a b).2.1 ≠ 0 →
      (fp_add_triple (fpAddParams W).1 (W - 1 - (fpAddParams W).1) (fpAddParams W).2
        rm a b).2.1 ≤ 0 →
      fp_add W a b rm none =
        (fp_add_triple (fpAddParams W).1 (W - 1 - (fpAddParams W).1) (fpAddParams W).2
          rm a b).1 <<< (W - 1)) ∧
    ¬ isSubnormal (fpAddParams W).1 (W - 1 - (fpAddParams W).1) (fp_add W a b rm none) := by
  have hE : 0 < (fpAddParams W).1 := by
    rcases hW with h | h | h <;> subst h <;> decide
  have hEM : (fpAddParams W).1 + (W - 1 - (fpAddParams W).1) = W - 1 := by
    rcases hW with h | h | h <;> subst h <;> decide
  have hfp : fp_add W a b rm none =
      fp_add_dec (fpAddParams W).1 (W - 1 - (fpAddParams W).1) (fpAddParams W).2 a b rm :=
    rfl
  constructor
  · intro hm hexp
    rw [hfp, fp_add_dec_flush _ _ _ _ _ _ hE hna hnb hia hib hza hzb hm hexp, hEM]
  · rw [hfp]
    exact fp_add_dec_not_subnormal _ _ _ _ _ _ hE hna hnb hia hib hza hzb

/-- Witness for C7: adding the smallest subnormal 0x0001 to itself at width
16 under RNE reaches the general path, underflows and flushes to +0. -/
theorem fp_add_underflow_flush_witness :
    (fp_add_aligned 5 10 32 1 1).2.1 ≠ 0 ∧ (fp_add_triple 5 10 32 0 1 1).2.1 ≤ 0 ∧
      fp_add 16 1 1 0 none = 0 := by
  refine ⟨by decide, by decide, ?_⟩
  have h := (fp_add_underflow_flush 16 1 1 0 (Or.inl rfl) (by decide) (by decide)
    (by decide) (by decide) (by decide) (by decide)).1 (by decide) (by decide)
  rw [h]
  decide

/-- C10: the dedicated fp16 adder of fp16_model.py with its default 32 extra
precision bits and the width-generic adder of fp_model.py at width 16 with
the default precision return identical bit patterns for every operand pair
and every rounding mode. -/
theorem fp16_add_ex_matches_fp_add (a b rm : Nat) :
    fp16_add_ex a b rm 32 = fp_add 16 a b rm none := rfl

/-- C4: at width 64 the multiplier ignores the requested rounding mode: the
inexact product 0x3ff0000000000003 times 0x3ff4000000000000 (0.75 of an ulp
above a representable value) is rounded up to 0x3ff4000000000004 under RTZ
exactly as under RNE, where a GRS rounding under RTZ must truncate to
0x3ff4000000000003. -/
theorem fp64_mul_ignores_rounding_mode :
    fp_mul 64 0x3FF0000000000003 0x3FF4000000000000 RTZ = 0x3FF4000000000004 ∧
    fp_mul 64 0x3FF0000000000003 0x3FF4000000000000 RNE = 0x3FF4000000000004 := by
  constructor <;> decide

/-- C2 counterexample: multiplying the negative quiet NaN 0xfe00 by 1.0 at
width 16 returns 0xfe00, the propagated NaN with its sign, not the canonical
quiet NaN 0x7e00 that the claim requires for every NaN operand. -/
theorem fp_mul16_negative_nan_not_canonical :
    fp_mul 16 0xFE00 0x3C00 RNE = 0xFE00 ∧ (0xFE00 : Nat) ≠ 0x7E00 := by
  constructor <;> decide

/-- C8 counterexample: with two NaN operands of different signs the width-16
multiplier propagates the first operand, so the two argument orders return
different patterns (0xfe00 versus 0x7e00). -/
theorem fp_mul_not_commutative_on_nans :
    fp_mul 16 0xFE00 0x7E00 RNE ≠ fp_mul 16 0x7E00 0xFE00 RNE := by
  decide

/-- An or with a nonzero value is nonzero. -/
theorem lor_ne_zero_right (a b : Nat) (hb : b ≠ 0) : a ||| b ≠ 0 := by
  intro h
  apply hb
  apply Nat.eq_of_testBit_eq
  intro i
  have h2 := congrArg (fun x => Nat.testBit x i) h
  simp only [Nat.testBit_or, Nat.zero_testBit, Bool.or_eq_false_iff] at h2
  simp [h2.2]

/-- topBitIdx computes the index of the top set bit of a nonzero value. -/
theorem topBitIdx_spec (fuel : Nat) : ∀ n : Nat, n ≠ 0 → n < 2 ^ fuel →
    ∃ k : Nat, topBitIdx fuel n = (k : Int) ∧ 2 ^ k ≤ n ∧ n < 2 ^ (k + 1) := by
  induction fuel with
  | zero =>
    intro n hn h
    simp at h
    omega
  | succ f ih =>
    intro n hn h
    rw [topBitIdx]
    by_cases hbit : (n >>> f) &&& 1 = 1
    · refine ⟨f, by rw [if_pos hbit], ?_, h⟩
      rw [Nat.shiftRight_eq_div_pow, Nat.and_one_is_mod] at hbit
      have h1 : 1 ≤ n / 2 ^ f := by
        rcases Nat.eq_zero_or_pos (n / 2 ^ f) with hz | hp
        · rw [hz] at hbit
          simp at hbit
        · exact hp
      exact (Nat.one_le_div_iff (pow_pos (by omega) f)).mp h1
    · rw [if_neg hbit]
      have hlt : n < 2 ^ f := by
        rw [Nat.shiftRight_eq_div_pow, Nat.and_one_is_mod] at hbit
        have hq2 : n / 2 ^ f < 2 := by
          apply Nat.div_lt_of_lt_mul
          rw [← pow_succ]
          exact h
        have hq0 : n / 2 ^ f = 0 := by
          interval_cases h4 : (n / 2 ^ f)
          · rfl
          · simp at hbit
        exact (Nat.div_eq_zero_iff (pow_pos (by omega) f)).mp hq0
      exact ih n hn hlt

/-- The scaled-and-rounded significand fits in M+2 bits whenever the ulp
weight is at least the natural one for the top bit of the input. -/
theorem rneScaled_le (M s0 : Nat) (e u : Int) (k : Nat)
    (_h1 : 2 ^ k ≤ s0) (h2 : s0 < 2 ^ (k + 1)) (hu : (k : Int) + e - M ≤ u) :
    rneScaled s0 e u ≤ 2 ^ (M + 1) := by
  simp only [rneScaled]
  by_cases he : e ≥ u
  · rw [if_pos he]
    have h3 : (e - u).toNat ≤ M - k := by omega
    have h4 : k ≤ M := by omega
    rw [Nat.shiftLeft_eq]
    have h5 : s0 * 2 ^ (e - u).toNat ≤ s0 * 2 ^ (M - k) :=
      Nat.mul_le_mul_left s0 (Nat.pow_le_pow_right (by omega) h3)
    have h6 : s0 * 2 ^ (M - k) < 2 ^ (k + 1) * 2 ^ (M - k) :=
      (Nat.mul_lt_mul_right (pow_pos (by omega) _)).mpr h2
    have h7 : 2 ^ (k + 1) * 2 ^ (M - k) = 2 ^ (M + 1) := by
      rw [← pow_add]
      congr 1
      omega
    omega
  · rw [if_neg he]
    have hdiv : s0 >>> (u - e).toNat < 2 ^ (M + 1) := by
      rw [Nat.shiftRight_eq_div_pow]
      apply Nat.div_lt_of_lt_mul
      calc s0 < 2 ^ (k + 1) := h2
        _ ≤ 2 ^ (M + 1 + (u - e).toNat) := Nat.pow_le_pow_right (by omega) (by omega)
        _ = 2 ^ (u - e).toNat * 2 ^ (M + 1) := by
              rw [← pow_add]
              congr 1
              omega
    have hinc : (if (s0 >>> ((u - e).toNat - 1)) &&& 1 = 1 ∧
        ((s0 >>> (u - e).toNat) &&& 1 = 1 ∨ s0 &&& ((1 <<< ((u - e).toNat - 1)) - 1) ≠ 0)
        then 1 else 0) ≤ 1 := by
      split <;> omega
    omega

/-- A pattern whose fraction field is zero is not a NaN pattern. -/
theorem not_nan_of_zero_frac (E M sgn eexp : Nat) (he : eexp < 2 ^ E) :
    ¬ isNaNPat E M ((sgn <<< (E + M)) ||| (eexp <<< M)) := by
  rintro ⟨-, hm⟩
  apply hm
  have h := pack3_frac E M sgn eexp 0 he (pow_pos (by omega) M)
  rwa [Nat.or_zero] at h

/-- A pattern whose exponent field stays below all-ones is not a NaN
pattern. -/
theorem not_nan_of_low_exp (E M sgn r : Nat) (hr : r < 2 ^ (E + M))
    (hre : r / 2 ^ M ≤ 2 ^ E - 2) (hE : 1 ≤ E) :
    ¬ isNaNPat E M ((sgn <<< (E + M)) ||| r) := by
  rintro ⟨hexp, -⟩
  simp only [Nat.shiftLeft_eq, one_mul] at hexp
  rw [lor_eq_add_of (E + M) sgn r hr, Nat.shiftRight_eq_div_pow,
    Nat.and_pow_two_sub_one_eq_mod] at hexp
  have h1 : sgn * 2 ^ (E + M) + r = 2 ^ M * (sgn * 2 ^ E) + r := by
    rw [pow_add]
    ring
  rw [h1, Nat.mul_add_div (pow_pos (by omega) M)] at hexp
  have h2E : (2 : Nat) ≤ 2 ^ E := by
    calc (2 : Nat) = 2 ^ 1 := rfl
      _ ≤ 2 ^ E := Nat.pow_le_pow_right (by omega) hE
  have h3 : r / 2 ^ M < 2 ^ E := by omega
  have h2 : sgn * 2 ^ E + r / 2 ^ M = 2 ^ E * sgn + r / 2 ^ M := by ring
  rw [h2, Nat.mul_add_mod, Nat.mod_eq_of_lt h3] at hexp
  omega

/-- The encoding step of roundRNE never yields a NaN pattern. -/
theorem roundRNEcore_not_nan (E M t : Nat) (u : Int) (sgn : Nat) (hE : 1 ≤ E)
    (ht : t ≤ 2 ^ (M + 1))
    (hu : 1 ≤ u + M + (((1 <<< (E - 1)) - 1 : Nat) : Int)) :
    ¬ isNaNPat E M ((sgn <<< (E + M)) ||| roundRNEcore E M t u) := by
  have h2E : (2 : Nat) ≤ 2 ^ E := by
    calc (2 : Nat) = 2 ^ 1 := rfl
      _ ≤ 2 ^ E := Nat.pow_le_pow_right (by omega) hE
  have hones : ((1 : Nat) <<< E) - 1 = 2 ^ E - 1 := by
    rw [Nat.shiftLeft_eq, one_mul]
  simp only [roundRNEcore]
  set bias : Int := (((1 <<< (E - 1)) - 1 : Nat) : Int) with hbias
  have key : ∀ (t1 : Nat) (u1 : Int), t1 < 2 ^ (M + 1) → 1 ≤ u1 + M + bias →
      ¬ isNaNPat E M ((sgn <<< (E + M)) |||
        (if u1 + M + bias ≥ (((1 <<< E) - 1 : Nat) : Int) then ((1 <<< E) - 1) <<< M
         else ((u1 + M + bias).toNat <<< M) + t1 - (1 <<< M))) := by
    intro t1 u1 ht1 hu1
    by_cases hinf : u1 + M + bias ≥ (((1 <<< E) - 1 : Nat) : Int)
    · rw [if_pos hinf]
      exact not_nan_of_zero_frac E M sgn ((1 <<< E) - 1) (by omega)
    · rw [if_neg hinf]
      set N := (u1 + M + bias).toNat with hN
      have hN1 : 1 ≤ N := by omega
      have hN2 : N ≤ 2 ^ E - 2 := by
        rw [hones] at hinf
        omega
      set r := (N <<< M) + t1 - (1 <<< M) with hr
      have hrr : r = (N - 1) * 2 ^ M + t1 := by
        rw [hr, Nat.shiftLeft_eq, Nat.shiftLeft_eq, one_mul]
        have hsp : N * 2 ^ M = (N - 1) * 2 ^ M + 2 ^ M := by
          have hNs : N = (N - 1) + 1 := by omega
          nth_rewrite 1 [hNs]
          rw [Nat.succ_mul]
        rw [hsp]
        generalize (N - 1) * 2 ^ M = A
        omega
      have hrlt : r < (N + 1) * 2 ^ M := by
        rw [hrr]
        have : (N + 1) * 2 ^ M = (N - 1) * 2 ^ M + 2 * 2 ^ M := by
          have hNs : N + 1 = (N - 1) + 1 + 1 := by omega
          rw [hNs]
          ring
        rw [this, pow_succ] at *
        generalize (N - 1) * 2 ^ M = A at *
        omega
      have hrEM : r < 2 ^ (E + M) := by
        calc r < (N + 1) * 2 ^ M := hrlt
          _ ≤ (2 ^ E - 1) * 2 ^ M := Nat.mul_le_mul_right _ (by omega)
          _ ≤ 2 ^ E * 2 ^ M := Nat.mul_le_mul_right _ (by omega)
          _ = 2 ^ (E + M) := by rw [← pow_add]
      have hrdiv : r / 2 ^ M ≤ 2 ^ E - 2 := by
        have := (Nat.div_lt_iff_lt_mul (pow_pos (show 0 < 2 by omega) M)).mpr hrlt
        omega
      exact not_nan_of_low_exp E M sgn r hrEM hrdiv hE
  by_cases hcar : t = 1 <<< (M + 1)
  · rw [if_pos hcar]
    exact key (1 <<< M) (u + 1)
      (by rw [Nat.shiftLeft_eq, one_mul, pow_succ]; have := pow_pos (show 0 < 2 by omega) M; omega)
      (by omega)
  · rw [if_neg hcar]
    refine key t u ?_ hu
    have : t ≠ 2 ^ (M + 1) := by
      rwa [Nat.shiftLeft_eq, one_mul] at hcar
    omega

/-- A sign bit ored with any roundRNE encoding is never a NaN pattern. -/
theorem roundRNE_not_nan (E M s0 : Nat) (e : Int) (sgn : Nat) (hE : 1 ≤ E)
    (hs0 : s0 < 2 ^ (2 * M + 8)) :
    ¬ isNaNPat E M ((sgn <<< (E + M)) ||| roundRNE E M s0 e) := by
  by_cases h0 : s0 = 0
  · rw [roundRNE, if_pos h0, Nat.or_zero]
    rintro ⟨-, hm⟩
    apply hm
    simpa using pack3_frac E M sgn 0 0 (pow_pos (by omega) E) (pow_pos (by omega) M)
  · rw [roundRNE, if_neg h0]
    obtain ⟨k, hkp, hk1, hk2⟩ := topBitIdx_spec (2 * M + 8) s0 h0 hs0
    refine roundRNEcore_not_nan E M _ _ sgn hE ?_ ?_
    · refine rneScaled_le M s0 e _ k hk1 hk2 ?_
      rw [hkp]
      exact le_max_left _ _
    · have h1 : (1 : Int) - (((1 <<< (E - 1)) - 1 : Nat) : Int) - M ≤
          max ((topBitIdx (2 * M + 8) s0) + e - M)
            (1 - (((1 <<< (E - 1)) - 1 : Nat) : Int) - M) := le_max_right _ _
      omega

/-- Promoting a non-NaN fp16 pattern to fp32 yields a non-NaN pattern. -/
theorem cvt16to32_not_nan (a : Nat) (h : ¬ isNaNPat 5 10 a) :
    ¬ isNaNPat 8 23 (cvt16to32 a) := by
  simp only [cvt16to32]
  by_cases he : (a >>> 10) &&& 0x1F = 0x1F
  · rw [if_pos he]
    have hf : a &&& 0x3FF = 0 := by
      by_contra hf
      exact h ⟨he, hf⟩
    rw [hf]
    simp only [Nat.zero_shiftLeft, Nat.or_zero]
    have h2 := not_nan_of_zero_frac 8 23 ((a >>> 15) &&& 1) 0xFF (by norm_num)
    simpa using h2
  · rw [if_neg he]
    by_cases hz : (a >>> 10) &&& 0x1F = 0
    · rw [if_pos hz]
      have h2 := roundRNE_not_nan 8 23 (a &&& 0x3FF) (-24) ((a >>> 15) &&& 1) (by omega)
        (lt_of_lt_of_le (and_mask_lt a 10) (by norm_num))
      simpa using h2
    · rw [if_neg hz]
      have hb0 : (1 <<< 10) ||| (a &&& 0x3FF) < 2 ^ 11 :=
        Nat.or_lt_two_pow (by decide) (lt_of_lt_of_le (and_mask_lt a 10) (by norm_num))
      have hb : (1 <<< 10) ||| (a &&& 0x3FF) < 2 ^ (2 * 23 + 8) :=
        lt_of_lt_of_le hb0 (by norm_num)
      have h2 := roundRNE_not_nan 8 23 ((1 <<< 10) ||| (a &&& 0x3FF))
        (((a >>> 10) &&& 0x1F : Nat) - 15 - 10) ((a >>> 15) &&& 1) (by omega) hb
      simpa using h2

/-- Promoting a non-NaN fp32 pattern to fp64 yields a non-NaN pattern. -/
theorem cvt32to64_not_nan (a : Nat) (h : ¬ isNaNPat 8 23 a) :
    ¬ isNaNPat 11 52 (cvt32to64 a) := by
  simp only [cvt32to64]
  have hnn : ¬((a >>> 23) &&& 0xFF = 0xFF ∧ a &&& 0x7FFFFF ≠ 0) := h
  rw [if_neg hnn]
  by_cases he : (a >>> 23) &&& 0xFF = 0xFF
  · rw [if_pos he]
    have h2 := not_nan_of_zero_frac 11 52 ((a >>> 31) &&& 1) 0x7FF (by norm_num)
    simpa using h2
  · rw [if_neg he]
    by_cases hz : (a >>> 23) &&& 0xFF = 0
    · rw [if_pos hz]
      have h2 := roundRNE_not_nan 11 52 (a &&& 0x7FFFFF) (-149) ((a >>> 31) &&& 1)
        (by omega) (lt_of_lt_of_le (and_mask_lt a 23) (by norm_num))
      simpa using h2
    · rw [if_neg hz]
      have hb0 : (1 <<< 23) ||| (a &&& 0x7FFFFF) < 2 ^ 24 :=
        Nat.or_lt_two_pow (by decide) (lt_of_lt_of_le (and_mask_lt a 23) (by norm_num))
      have hb : (1 <<< 23) ||| (a &&& 0x7FFFFF) < 2 ^ (2 * 52 + 8) :=
        lt_of_lt_of_le hb0 (by norm_num)
      have h2 := roundRNE_not_nan 11 52 ((1 <<< 23) ||| (a &&& 0x7FFFFF))
        (((a >>> 23) &&& 0xFF : Nat) - 127 - 23) ((a >>> 31) &&& 1) (by omega) hb
      simpa using h2

/-- A NaN in the first operand of the host multiply is returned quieted. -/
theorem npMul_nan_first (E M a b : Nat) (ha : isNaNPat E M a) :
    npMul E M a b = a ||| (1 <<< (M - 1)) := by
  have ha2 : (a >>> M) &&& ((1 <<< E) - 1) = (1 <<< E) - 1 ∧ a &&& ((1 <<< M) - 1) ≠ 0 := ha
  simp only [npMul]
  rw [if_pos ha2]

/-- A NaN in the second operand (first not NaN) is returned quieted. -/
theorem npMul_nan_second (E M a b : Nat) (hna : ¬ isNaNPat E M a)
    (hb : isNaNPat E M b) : npMul E M a b = b ||| (1 <<< (M - 1)) := by
  have hna2 : ¬((a >>> M) &&& ((1 <<< E) - 1) = (1 <<< E) - 1 ∧
      a &&& ((1 <<< M) - 1) ≠ 0) := hna
  have hb2 : (b >>> M) &&& ((1 <<< E) - 1) = (1 <<< E) - 1 ∧ b &&& ((1 <<< M) - 1) ≠ 0 := hb
  simp only [npMul]
  rw [if_neg hna2, if_pos hb2]

/-- The host multiply is commutative except when both operands are NaN. -/
theorem npMul_comm (E M a b : Nat) (hE : 1 ≤ E)
    (h : ¬(isNaNPat E M a ∧ isNaNPat E M b)) :
    npMul E M a b = npMul E M b a := by
  have h2E : (2 : Nat) ≤ 2 ^ E := by
    calc (2 : Nat) = 2 ^ 1 := rfl
      _ ≤ 2 ^ E := Nat.pow_le_pow_right (by omega) hE
  have hones : 1 ≤ (1 <<< E) - 1 := by
    rw [Nat.shiftLeft_eq, one_mul]
    omega
  by_cases hA : isNaNPat E M a <;> by_cases hB : isNaNPat E M b
  · exact absurd ⟨hA, hB⟩ h
  · rw [npMul_nan_first E M a b hA, npMul_nan_second E M b a hB hA]
  · rw [npMul_nan_second E M a b hA hB, npMul_nan_first E M b a hB]
  · have hA2 : ¬((a >>> M) &&& ((1 <<< E) - 1) = (1 <<< E) - 1 ∧
        a &&& ((1 <<< M) - 1) ≠ 0) := hA
    have hB2 : ¬((b >>> M) &&& ((1 <<< E) - 1) = (1 <<< E) - 1 ∧
        b &&& ((1 <<< M) - 1) ≠ 0) := hB
    simp only [npMul, if_neg hA2, if_neg hB2]
    by_cases hIA : (a >>> M) &&& ((1 <<< E) - 1) = (1 <<< E) - 1 <;>
      by_cases hIB : (b >>> M) &&& ((1 <<< E) - 1) = (1 <<< E) - 1
    · simp only [if_pos hIA, if_pos hIB]
      rw [if_neg (by omega : ¬((b >>> M) &&& ((1 <<< E) - 1) = 0 ∧
        b &&& ((1 <<< M) - 1) = 0)), if_neg (by omega : ¬((a >>> M) &&& ((1 <<< E) - 1) = 0 ∧
        a &&& ((1 <<< M) - 1) = 0)), Nat.xor_comm]
    · simp only [if_pos hIA, if_neg hIB]
      by_cases hbz : (b >>> M) &&& ((1 <<< E) - 1) = 0 ∧ b &&& ((1 <<< M) - 1) = 0
      · rw [if_pos hbz, if_pos hbz]
      · rw [if_neg hbz, if_neg hbz, Nat.xor_comm]
    · simp only [if_neg hIA, if_pos hIB]
      by_cases haz : (a >>> M) &&& ((1 <<< E) - 1) = 0 ∧ a &&& ((1 <<< M) - 1) = 0
      · rw [if_pos haz, if_pos haz]
      · rw [if_neg haz, if_neg haz, Nat.xor_comm]
    · simp only [if_neg hIA, if_neg hIB]
      by_cases hz : ((a >>> M) &&& ((1 <<< E) - 1) = 0 ∧ a &&& ((1 <<< M) - 1) = 0) ∨
        ((b >>> M) &&& ((1 <<< E) - 1) = 0 ∧ b &&& ((1 <<< M) - 1) = 0)
      · rw [if_pos hz, if_pos (Or.symm hz), Nat.xor_comm]
      · rw [if_neg hz, if_neg (fun hc => hz (Or.symm hc)), Nat.xor_comm, Nat.mul_comm,
          Int.add_comm]

/-- The fp32-to-fp16 rounder maps any NaN input to the sign-preserving
canonical NaN pattern. -/
theorem round_fp32_to_fp16_nan (x rm : Nat) (hx : isNaNPat 8 23 x) :
    round_fp32_to_fp16 x rm = (((x >>> 31) &&& 1) <<< 15) ||| 0x7E00 := by
  have hx1 : (x >>> 23) &&& 0xFF = 0xFF := hx.1
  have hx2 : x &&& 0x7FFFFF ≠ 0 := hx.2
  simp only [round_fp32_to_fp16]
  rw [if_pos hx1, if_pos hx2]
  have hsb : (x >>> 16) &&& 0x8000 = ((x >>> 31) &&& 1) <<< 15 := by
    rw [show (0x8000 : Nat) = 2 ^ 15 by norm_num, Nat.and_two_pow, Nat.testBit_shiftRight,
      Nat.shiftLeft_eq, Nat.and_one_is_mod, Nat.shiftRight_eq_div_pow,
      Nat.testBit_to_div_mod, show (16 + 15) = 31 from rfl]
    rcases Nat.mod_two_eq_zero_or_one (x / 2 ^ 31) with hb | hb <;> rw [hb] <;> simp
  rw [hsb, Nat.or_assoc]
  congr 1

/-- The fp64-to-fp32 rounder maps any NaN input to the sign-preserving
canonical NaN pattern. -/
theorem round_fp64_to_fp32_nan (x rm : Nat) (hx : isNaNPat 11 52 x) :
    round_fp64_to_fp32 x rm = (((x >>> 63) &&& 1) <<< 31) ||| 0x7FC00000 := by
  have hx1 : (x >>> 52) &&& 0x7FF = 0x7FF := hx.1
  have hx2 : x &&& 0xFFFFFFFFFFFFF ≠ 0 := hx.2
  simp only [round_fp64_to_fp32]
  rw [if_pos hx1, if_pos hx2, Nat.or_assoc]
  congr 1

/-- Promoting a 16-bit NaN pattern gives a 32-bit NaN whose quieted form is
still NaN and keeps the operand sign bit. -/
theorem cvt16to32_nan_pack (a : Nat) (ha : isNaNPat 5 10 a) :
    isNaNPat 8 23 (cvt16to32 a) ∧
    isNaNPat 8 23 (cvt16to32 a ||| (1 <<< (23 - 1))) ∧
    ((cvt16to32 a ||| (1 <<< (23 - 1))) >>> 31) &&& 1 = (a >>> 15) &&& 1 := by
  have ha1 : (a >>> 10) &&& 0x1F = 0x1F := ha.1
  have ha2 : a &&& 0x3FF ≠ 0 := ha.2
  have hX : cvt16to32 a =
      (((a >>> 15) &&& 1) <<< 31) ||| (0xFF <<< 23) ||| ((a &&& 0x3FF) <<< 13) := by
    simp only [cvt16to32]
    rw [if_pos ha1]
  have hfb : (a &&& 0x3FF) <<< 13 < 2 ^ 23 := by
    rw [Nat.shiftLeft_eq]
    have h1 : a &&& 0x3FF < 2 ^ 10 := by simpa using and_mask_lt a 10
    calc (a &&& 0x3FF) * 2 ^ 13 < 2 ^ 10 * 2 ^ 13 :=
          (Nat.mul_lt_mul_right (by norm_num)).mpr h1
      _ = 2 ^ 23 := by norm_num
  have hXnan : isNaNPat 8 23 (cvt16to32 a) := by
    rw [hX]
    constructor
    · have h2 := pack3_exp 8 23 ((a >>> 15) &&& 1) 0xFF ((a &&& 0x3FF) <<< 13)
        (by norm_num) hfb
      simpa using h2
    · have h2 := pack3_frac 8 23 ((a >>> 15) &&& 1) 0xFF ((a &&& 0x3FF) <<< 13)
        (by norm_num) hfb
      have h4 : ((((a >>> 15) &&& 1) <<< 31) ||| (0xFF <<< 23) |||
          ((a &&& 0x3FF) <<< 13)) &&& ((1 <<< 23) - 1) = (a &&& 0x3FF) <<< 13 := by
        simpa using h2
      rw [h4, Nat.shiftLeft_eq]
      exact Nat.mul_ne_zero ha2 (by positivity)
  have hfq : ((a &&& 0x3FF) <<< 13) ||| (1 <<< (23 - 1)) < 2 ^ 23 :=
    Nat.or_lt_two_pow hfb (by decide)
  have hYnan : isNaNPat 8 23 (cvt16to32 a ||| (1 <<< (23 - 1))) := by
    rw [hX, Nat.or_assoc]
    constructor
    · have h2 := pack3_exp 8 23 ((a >>> 15) &&& 1) 0xFF
        (((a &&& 0x3FF) <<< 13) ||| (1 <<< (23 - 1))) (by norm_num) hfq
      simpa using h2
    · have h2 := pack3_frac 8 23 ((a >>> 15) &&& 1) 0xFF
        (((a &&& 0x3FF) <<< 13) ||| (1 <<< (23 - 1))) (by norm_num) hfq
      have h4 : ((((a >>> 15) &&& 1) <<< 31) ||| (0xFF <<< 23) |||
          (((a &&& 0x3FF) <<< 13) ||| (1 <<< (23 - 1)))) &&& ((1 <<< 23) - 1) =
          ((a &&& 0x3FF) <<< 13) ||| (1 <<< (23 - 1)) := by
        simpa using h2
      rw [h4]
      exact lor_ne_zero_right _ _ (by decide)
  have hsign : ((cvt16to32 a ||| (1 <<< (23 - 1))) >>> 31) &&& 1 = (a >>> 15) &&& 1 := by
    rw [hX, Nat.or_assoc]
    have h2 := pack3_sign 8 23 ((a >>> 15) &&& 1) 0xFF
      (((a &&& 0x3FF) <<< 13) ||| (1 <<< (23 - 1))) (and_one_le_one _) (by norm_num) hfq
    simpa using h2
  exact ⟨hXnan, hYnan, hsign⟩

/-- A NaN first operand of the 16-bit multiply produces the canonical NaN
fraction with the sign of that operand. -/
theorem fp16_mul_nan_first (a b rm : Nat) (ha : isNaNPat 5 10 a) :
    fp16_mul a b rm = (((a >>> 15) &&& 1) <<< 15) ||| 0x7E00 := by
  obtain ⟨hXnan, hYnan, hsign⟩ := cvt16to32_nan_pack a ha
  have hq := npMul_nan_first 8 23 (cvt16to32 a) (cvt16to32 b) hXnan
  calc fp16_mul a b rm = round_fp32_to_fp16 (cvt16to32 a ||| (1 <<< (23 - 1))) rm := by
        simp only [fp16_mul]
        rw [hq]
    _ = (((cvt16to32 a ||| (1 <<< (23 - 1))) >>> 31) &&& 1) <<< 15 ||| 0x7E00 :=
        round_fp32_to_fp16_nan _ rm hYnan
    _ = (((a >>> 15) &&& 1) <<< 15) ||| 0x7E00 := by rw [hsign]

/-- A NaN second operand (first operand not NaN) of the 16-bit multiply
produces the canonical NaN fraction with the sign of the second operand. -/
theorem fp16_mul_nan_second (a b rm : Nat) (hna : ¬ isNaNPat 5 10 a)
    (hb : isNaNPat 5 10 b) :
    fp16_mul a b rm = (((b >>> 15) &&& 1) <<< 15) ||| 0x7E00 := by
  obtain ⟨hXnan, hYnan, hsign⟩ := cvt16to32_nan_pack b hb
  have hq := npMul_nan_second 8 23 (cvt16to32 a) (cvt16to32 b)
    (cvt16to32_not_nan a hna) hXnan
  calc fp16_mul a b rm = round_fp32_to_fp16 (cvt16to32 b ||| (1 <<< (23 - 1))) rm := by
        simp only [fp16_mul]
        rw [hq]
    _ = (((cvt16to32 b ||| (1 <<< (23 - 1))) >>> 31) &&& 1) <<< 15 ||| 0x7E00 :=
        round_fp32_to_fp16_nan _ rm hYnan
    _ = (((b >>> 15) &&& 1) <<< 15) ||| 0x7E00 := by rw [hsign]

/-- Promoting a 32-bit NaN pattern gives a 64-bit NaN whose quieted form is
still NaN and keeps the operand sign bit. -/
theorem cvt32to64_nan_pack (a : Nat) (ha : isNaNPat 8 23 a) :
    isNaNPat 11 52 (cvt32to64 a) ∧
    isNaNPat 11 52 (cvt32to64 a ||| (1 <<< (52 - 1))) ∧
    ((cvt32to64 a ||| (1 <<< (52 - 1))) >>> 63) &&& 1 = (a >>> 31) &&& 1 := by
  have ha1 : (a >>> 23) &&& 0xFF = 0xFF ∧ a &&& 0x7FFFFF ≠ 0 := ha
  have hX : cvt32to64 a =
      (((a >>> 31) &&& 1) <<< 63) ||| (0x7FF <<< 52) |||
        (((a &&& 0x7FFFFF) ||| (1 <<< 22)) <<< 29) := by
    simp only [cvt32to64]
    rw [if_pos ha1]
  have hor : (a &&& 0x7FFFFF) ||| (1 <<< 22) < 2 ^ 23 :=
    Nat.or_lt_two_pow (by simpa using and_mask_lt a 23) (by decide)
  have hfb : ((a &&& 0x7FFFFF) ||| (1 <<< 22)) <<< 29 < 2 ^ 52 := by
    rw [Nat.shiftLeft_eq]
    calc ((a &&& 0x7FFFFF) ||| (1 <<< 22)) * 2 ^ 29 < 2 ^ 23 * 2 ^ 29 :=
          (Nat.mul_lt_mul_right (by norm_num)).mpr hor
      _ = 2 ^ 52 := by norm_num
  have hne : ((a &&& 0x7FFFFF) ||| (1 <<< 22)) <<< 29 ≠ 0 := by
    rw [Nat.shiftLeft_eq]
    exact Nat.mul_ne_zero (lor_ne_zero_right _ _ (by decide)) (by positivity)
  have hXnan : isNaNPat 11 52 (cvt32to64 a) := by
    rw [hX]
    constructor
    · have h2 := pack3_exp 11 52 ((a >>> 31) &&& 1) 0x7FF
        (((a &&& 0x7FFFFF) ||| (1 <<< 22)) <<< 29) (by norm_num) hfb
      simpa using h2
    · have h2 := pack3_frac 11 52 ((a >>> 31) &&& 1) 0x7FF
        (((a &&& 0x7FFFFF) ||| (1 <<< 22)) <<< 29) (by norm_num) hfb
      have h4 : ((((a >>> 31) &&& 1) <<< 63) ||| (0x7FF <<< 52) |||
          (((a &&& 0x7FFFFF) ||| (1 <<< 22)) <<< 29)) &&& ((1 <<< 52) - 1) =
          ((a &&& 0x7FFFFF) ||| (1 <<< 22)) <<< 29 := by
        simpa using h2
      rw [h4]
      exact hne
  have hfq : (((a &&& 0x7FFFFF) ||| (1 <<< 22)) <<< 29) ||| (1 <<< (52 - 1)) < 2 ^ 52 :=
    Nat.or_lt_two_pow hfb (by decide)
  have hYnan : isNaNPat 11 52 (cvt32to64 a ||| (1 <<< (52 - 1))) := by
    rw [hX, Nat.or_assoc]
    constructor
    · have h2 := pack3_exp 11 52 ((a >>> 31) &&& 1) 0x7FF
        ((((a &&& 0x7FFFFF) ||| (1 <<< 22)) <<< 29) ||| (1 <<< (52 - 1)))
        (by norm_num) hfq
      simpa using h2
    · have h2 := pack3_frac 11 52 ((a >>> 31) &&& 1) 0x7FF
        ((((a &&& 0x7FFFFF) ||| (1 <<< 22)) <<< 29) ||| (1 <<< (52 - 1)))
        (by norm_num) hfq
      have h4 : ((((a >>> 31) &&& 1) <<< 63) ||| (0x7FF <<< 52) |||
          ((((a &&& 0x7FFFFF) ||| (1 <<< 22)) <<< 29) ||| (1 <<< (52 - 1)))) &&&
          ((1 <<< 52) - 1) =
          (((a &&& 0x7FFFFF) ||| (1 <<< 22)) <<< 29) ||| (1 <<< (52 - 1)) := by
        simpa using h2
      rw [h4]
      exact lor_ne_zero_right _ _ (by decide)
  have hsign : ((cvt32to64 a ||| (1 <<< (52 - 1))) >>> 63) &&& 1 = (a >>> 31) &&& 1 := by
    rw [hX, Nat.or_assoc]
    have h2 := pack3_sign 11 52 ((a >>> 31) &&& 1) 0x7FF
      ((((a &&& 0x7FFFFF) ||| (1 <<< 22)) <<< 29) ||| (1 <<< (52 - 1)))
      (and_one_le_one _) (by norm_num) hfq
    simpa using h2
  exact ⟨hXnan, hYnan, hsign⟩

/-- A NaN first operand of the 32-bit multiply produces the canonical NaN
fraction with the sign of that operand. -/
theorem fp32_mul_nan_first (a b rm : Nat) (ha : isNaNPat 8 23 a) :
    fp32_mul a b rm = (((a >>> 31) &&& 1) <<< 31) ||| 0x7FC00000 := by
  obtain ⟨hXnan, hYnan, hsign⟩ := cvt32to64_nan_pack a ha
  have hq := npMul_nan_first 11 52 (cvt32to64 a) (cvt32to64 b) hXnan
  calc fp32_mul a b rm = round_fp64_to_fp32 (cvt32to64 a ||| (1 <<< (52 - 1))) rm := by
        simp only [fp32_mul]
        rw [hq]
    _ = (((cvt32to64 a ||| (1 <<< (52 - 1))) >>> 63) &&& 1) <<< 31 ||| 0x7FC00000 :=
        round_fp64_to_fp32_nan _ rm hYnan
    _ = (((a >>> 31) &&& 1) <<< 31) ||| 0x7FC00000 := by rw [hsign]

/-- A NaN second operand (first operand not NaN) of the 32-bit multiply
produces the canonical NaN fraction with the sign of the second operand. -/
theorem fp32_mul_nan_second (a b rm : Nat) (hna : ¬ isNaNPat 8 23 a)
    (hb : isNaNPat 8 23 b) :
    fp32_mul a b rm = (((b >>> 31) &&& 1) <<< 31) ||| 0x7FC00000 := by
  obtain ⟨hXnan, hYnan, hsign⟩ := cvt32to64_nan_pack b hb
  have hq := npMul_nan_second 11 52 (cvt32to64 a) (cvt32to64 b)
    (cvt32to64_not_nan a hna) hXnan
  calc fp32_mul a b rm = round_fp64_to_fp32 (cvt32to64 b ||| (1 <<< (52 - 1))) rm := by
        simp only [fp32_mul]
        rw [hq]
    _ = (((cvt32to64 b ||| (1 <<< (52 - 1))) >>> 63) &&& 1) <<< 31 ||| 0x7FC00000 :=
        round_fp64_to_fp32_nan _ rm hYnan
    _ = (((b >>> 31) &&& 1) <<< 31) ||| 0x7FC00000 := by rw [hsign]

/-- A NaN first operand of the 64-bit multiply is returned quieted with its
sign and payload intact. -/
theorem fp64_mul_nan_first (a b rm : Nat) (ha : isNaNPat 11 52 a) :
    fp64_mul a b rm = a ||| (1 <<< 51) := by
  simp only [fp64_mul]
  have h2 := npMul_nan_first 11 52 a b ha
  simpa using h2

/-- A NaN second operand (first operand not NaN) of the 64-bit multiply is
returned quieted with its sign and payload intact. -/
theorem fp64_mul_nan_second (a b rm : Nat) (hna : ¬ isNaNPat 11 52 a)
    (hb : isNaNPat 11 52 b) : fp64_mul a b rm = b ||| (1 <<< 51) := by
  simp only [fp64_mul]
  have h2 := npMul_nan_second 11 52 a b hna hb
  simpa using h2

/-- Width dispatch of fp_mul at width 16. -/
theorem fp_mul_16_eq (a b rm : Nat) : fp_mul 16 a b rm = fp16_mul a b rm := by
  simp only [fp_mul]
  rw [if_pos trivial]

/-- Width dispatch of fp_mul at width 32. -/
theorem fp_mul_32_eq (a b rm : Nat) : fp_mul 32 a b rm = fp32_mul a b rm := by
  simp only [fp_mul]
  rw [if_neg (show ¬(32 = 16) by decide), if_pos trivial]

/-- Width dispatch of fp_mul at width 64. -/
theorem fp_mul_64_eq (a b rm : Nat) : fp_mul 64 a b rm = fp64_mul a b rm := by
  simp only [fp_mul]
  rw [if_neg (show ¬(64 = 16) by decide), if_neg (show ¬(64 = 32) by decide)]

/-- A NaN operand makes fp_add return the canonical quiet NaN pattern. -/
theorem fp_add_dec_nan (E M P a b rm : Nat)
    (h : isNaNPat E M a ∨ isNaNPat E M b) :
    fp_add_dec E M P a b rm = (((1 <<< E) - 1) <<< M) ||| (1 <<< (M - 1)) := by
  have h2 : ((a >>> M) &&& ((1 <<< E) - 1) = (1 <<< E) - 1 ∧ a &&& ((1 <<< M) - 1) ≠ 0) ∨
      ((b >>> M) &&& ((1 <<< E) - 1) = (1 <<< E) - 1 ∧ b &&& ((1 <<< M) - 1) ≠ 0) := h
  simp only [fp_add_dec]
  rw [if_pos h2]

/-- C2 amended: a NaN operand forces a quiet-NaN result everywhere, but only
the adder canonicalizes fully.  The adder returns the canonical quiet NaN
(0x7e00 / 0x7fc00000 / 0x7ff8000000000000) at every width and mode.  The
multiplier propagates the first NaN operand (a if a is NaN, else b): at
widths 16 and 32 the fraction is canonicalized to the MSB-only pattern but
the propagated sign bit is kept, and at width 64 the propagated sign and
payload are both kept with the quiet bit set; the result is the canonical
quiet NaN only when the propagated NaN is positive (and payload-free at
width 64). -/
theorem nan_propagation_amended :
    (∀ a b rm : Nat, isNaNPat 5 10 a ∨ isNaNPat 5 10 b →
      fp_add 16 a b rm none = 0x7E00) ∧
    (∀ a b rm : Nat, isNaNPat 8 23 a ∨ isNaNPat 8 23 b →
      fp_add 32 a b rm none = 0x7FC00000) ∧
    (∀ a b rm : Nat, isNaNPat 11 52 a ∨ isNaNPat 11 52 b →
      fp_add 64 a b rm none = 0x7FF8000000000000) ∧
    (∀ a b rm : Nat,
      (isNaNPat 5 10 a → fp_mul 16 a b rm = (((a >>> 15) &&& 1) <<< 15) ||| 0x7E00) ∧
      (¬ isNaNPat 5 10 a → isNaNPat 5 10 b →
        fp_mul 16 a b rm = (((b >>> 15) &&& 1) <<< 15) ||| 0x7E00)) ∧
    (∀ a b rm : Nat,
      (isNaNPat 8 23 a → fp_mul 32 a b rm = (((a >>> 31) &&& 1) <<< 31) ||| 0x7FC00000) ∧
      (¬ isNaNPat 8 23 a → isNaNPat 8 23 b →
        fp_mul 32 a b rm = (((b >>> 31) &&& 1) <<< 31) ||| 0x7FC00000)) ∧
    (∀ a b rm : Nat,
      (isNaNPat 11 52 a → fp_mul 64 a b rm = a ||| (1 <<< 51)) ∧
      (¬ isNaNPat 11 52 a → isNaNPat 11 52 b → fp_mul 64 a b rm = b ||| (1 <<< 51))) := by
  refine ⟨?_, ?_, ?_, ?_, ?_, ?_⟩
  · intro a b rm h
    calc fp_add 16 a b rm none = fp_add_dec 5 10 32 a b rm := rfl
      _ = (((1 <<< 5) - 1) <<< 10) ||| (1 <<< (10 - 1)) := fp_add_dec_nan 5 10 32 a b rm h
      _ = 0x7E00 := by decide
  · intro a b rm h
    calc fp_add 32 a b rm none = fp_add_dec 8 23 7 a b rm := rfl
      _ = (((1 <<< 8) - 1) <<< 23) ||| (1 <<< (23 - 1)) := fp_add_dec_nan 8 23 7 a b rm h
      _ = 0x7FC00000 := by decide
  · intro a b rm h
    calc fp_add 64 a b rm none = fp_add_dec 11 52 7 a b rm := rfl
      _ = (((1 <<< 11) - 1) <<< 52) ||| (1 <<< (52 - 1)) := fp_add_dec_nan 11 52 7 a b rm h
      _ = 0x7FF8000000000000 := by decide
  · intro a b rm
    refine ⟨fun ha => ?_, fun hna hb => ?_⟩
    · rw [fp_mul_16_eq]
      exact fp16_mul_nan_first a b rm ha
    · rw [fp_mul_16_eq]
      exact fp16_mul_nan_second a b rm hna hb
  · intro a b rm
    refine ⟨fun ha => ?_, fun hna hb => ?_⟩
    · rw [fp_mul_32_eq]
      exact fp32_mul_nan_first a b rm ha
    · rw [fp_mul_32_eq]
      exact fp32_mul_nan_second a b rm hna hb
  · intro a b rm
    refine ⟨fun ha => ?_, fun hna hb => ?_⟩
    · rw [fp_mul_64_eq]
      exact fp64_mul_nan_first a b rm ha
    · rw [fp_mul_64_eq]
      exact fp64_mul_nan_second a b rm hna hb

/-- Witness for the amended NaN behaviour: a signaling NaN plus zero at
width 16 gives the canonical quiet NaN, and a negative NaN at width 64
propagates through the multiplier with sign and payload kept. -/
theorem nan_propagation_amended_witness :
    (isNaNPat 5 10 0x7C01 ∨ isNaNPat 5 10 0) ∧
    fp_add 16 0x7C01 0 0 none = 0x7E00 ∧
    isNaNPat 11 52 0xFFF0000000000001 ∧
    fp_mul 64 0xFFF0000000000001 0x3FF0000000000000 0 =
      0xFFF0000000000001 ||| (1 <<< 51) := by
  refine ⟨Or.inl (by decide), ?_, by decide, ?_⟩
  · exact nan_propagation_amended.1 0x7C01 0 0 (Or.inl (by decide))
  · exact (nan_propagation_amended.2.2.2.2.2 0xFFF0000000000001
      0x3FF0000000000000 0).1 (by decide)

/-- Swapping the operands of the combine stage keeps the mantissa and the
exponent, and keeps the sign whenever the mantissa is nonzero. -/
theorem alignAddSub_swap (P sa : Nat) (ea : Int) (ma : Nat) (sb : Nat) (eb : Int)
    (mb : Nat) :
    (alignAddSub P sb eb mb sa ea ma).2.1 = (alignAddSub P sa ea ma sb eb mb).2.1 ∧
    (alignAddSub P sb eb mb sa ea ma).2.2 = (alignAddSub P sa ea ma sb eb mb).2.2 ∧
    ((alignAddSub P sa ea ma sb eb mb).2.1 ≠ 0 →
      (alignAddSub P sb eb mb sa ea ma).1 = (alignAddSub P sa ea ma sb eb mb).1) := by
  simp only [alignAddSub, neg_sub]
  rcases lt_trichotomy ea eb with hlt | heq | hgt
  · rw [if_neg (by omega : ¬ ea - eb > 0), if_pos (by omega : eb - ea > 0)]
    dsimp only
    refine ⟨?_, ?_, ?_⟩ <;> split_ifs <;> dsimp only <;> omega
  · subst heq
    rw [if_neg (by omega : ¬ ea - ea > 0), if_neg (by omega : ¬ ea - ea > 0), sub_self,
      Int.toNat_zero, Nat.shiftRight_zero, Nat.shiftRight_zero]
    dsimp only
    refine ⟨?_, ?_, ?_⟩ <;> split_ifs <;> dsimp only <;> omega
  · rw [if_pos (by omega : ea - eb > 0), if_neg (by omega : ¬ eb - ea > 0)]
    dsimp only
    refine ⟨?_, ?_, ?_⟩ <;> split_ifs <;> dsimp only <;> omega

/-- A W-bit pattern is recovered from its decoded sign, exponent and
fraction fields. -/
theorem decomp (E M x : Nat) (hx : x < 2 ^ (E + M + 1)) :
    x = ((x >>> (E + M)) &&& 1) * 2 ^ (E + M) +
      ((x >>> M) &&& ((1 <<< E) - 1)) * 2 ^ M + (x &&& ((1 <<< M) - 1)) := by
  rw [Nat.shiftRight_eq_div_pow, Nat.shiftRight_eq_div_pow, Nat.and_one_is_mod,
    Nat.shiftLeft_eq, one_mul, Nat.shiftLeft_eq, one_mul,
    Nat.and_pow_two_sub_one_eq_mod, Nat.and_pow_two_sub_one_eq_mod]
  have h1 : x / 2 ^ (E + M) % 2 = x / 2 ^ (E + M) :=
    Nat.mod_eq_of_lt (Nat.div_lt_of_lt_mul (by rw [← pow_succ]; exact hx))
  rw [h1]
  have h2 : x / 2 ^ M % 2 ^ E = x % 2 ^ (E + M) / 2 ^ M := by
    rw [show (2 : Nat) ^ (E + M) = 2 ^ M * 2 ^ E by rw [← pow_add]; congr 1; omega]
    exact (Nat.mod_mul_right_div_self x (2 ^ M) (2 ^ E)).symm
  rw [h2]
  have h3 : x % 2 ^ (E + M) % 2 ^ M = x % 2 ^ M :=
    Nat.mod_mod_of_dvd x (pow_dvd_pow 2 (by omega))
  have h4 := Nat.div_add_mod x (2 ^ (E + M))
  have h5 := Nat.div_add_mod (x % 2 ^ (E + M)) (2 ^ M)
  linarith [h4, h5, h3]

/-- Two W-bit patterns with the same decoded fields are equal. -/
theorem eq_of_fields (E M a b : Nat) (ha : a < 2 ^ (E + M + 1)) (hb : b < 2 ^ (E + M + 1))
    (hs : (a >>> (E + M)) &&& 1 = (b >>> (E + M)) &&& 1)
    (he : (a >>> M) &&& ((1 <<< E) - 1) = (b >>> M) &&& ((1 <<< E) - 1))
    (hm : a &&& ((1 <<< M) - 1) = b &&& ((1 <<< M) - 1)) : a = b := by
  conv_lhs => rw [decomp E M a ha]
  conv_rhs => rw [decomp E M b hb]
  rw [hs, he, hm]

/-- fp_add is commutative on W-bit operands. -/
theorem fp_add_dec_comm (E M P a b rm : Nat) (ha : a < 2 ^ (E + M + 1))
    (hb : b < 2 ^ (E + M + 1)) :
    fp_add_dec E M P a b rm = fp_add_dec E M P b a rm := by
  simp only [fp_add_dec]
  by_cases h1 : ((a >>> M) &&& ((1 <<< E) - 1) = (1 <<< E) - 1 ∧ a &&& ((1 <<< M) - 1) ≠ 0) ∨
      ((b >>> M) &&& ((1 <<< E) - 1) = (1 <<< E) - 1 ∧ b &&& ((1 <<< M) - 1) ≠ 0)
  · rw [if_pos h1, if_pos (Or.symm h1)]
  · rw [if_neg h1, if_neg (fun hc => h1 (Or.symm hc))]
    have hna : ¬((a >>> M) &&& ((1 <<< E) - 1) = (1 <<< E) - 1 ∧
        a &&& ((1 <<< M) - 1) ≠ 0) := fun hc => h1 (Or.inl hc)
    have hnb : ¬((b >>> M) &&& ((1 <<< E) - 1) = (1 <<< E) - 1 ∧
        b &&& ((1 <<< M) - 1) ≠ 0) := fun hc => h1 (Or.inr hc)
    by_cases h2 : ((a >>> M) &&& ((1 <<< E) - 1) = (1 <<< E) - 1 ∧ a &&& ((1 <<< M) - 1) = 0) ∧
        ((b >>> M) &&& ((1 <<< E) - 1) = (1 <<< E) - 1 ∧ b &&& ((1 <<< M) - 1) = 0) ∧
        (a >>> (E + M)) &&& 1 ≠ (b >>> (E + M)) &&& 1
    · rw [if_pos h2, if_pos ⟨h2.2.1, h2.1, Ne.symm h2.2.2⟩]
    · have h2s : ¬(((b >>> M) &&& ((1 <<< E) - 1) = (1 <<< E) - 1 ∧
            b &&& ((1 <<< M) - 1) = 0) ∧
          ((a >>> M) &&& ((1 <<< E) - 1) = (1 <<< E) - 1 ∧ a &&& ((1 <<< M) - 1) = 0) ∧
          (b >>> (E + M)) &&& 1 ≠ (a >>> (E + M)) &&& 1) :=
        fun hc => h2 ⟨hc.2.1, hc.1, Ne.symm hc.2.2⟩
      rw [if_neg h2, if_neg h2s]
      by_cases hia : (a >>> M) &&& ((1 <<< E) - 1) = (1 <<< E) - 1 ∧ a &&& ((1 <<< M) - 1) = 0
      · by_cases hib : (b >>> M) &&& ((1 <<< E) - 1) = (1 <<< E) - 1 ∧
            b &&& ((1 <<< M) - 1) = 0
        · have hss : (a >>> (E + M)) &&& 1 = (b >>> (E + M)) &&& 1 := by
            by_contra hss
            exact h2 ⟨hia, hib, hss⟩
          have hab : a = b := eq_of_fields E M a b ha hb hss (hia.1.trans hib.1.symm)
            (hia.2.trans hib.2.symm)
          rw [if_pos hia, if_pos hib, hab]
        · rw [if_pos hia, if_neg hib, if_pos hia]
      · by_cases hib : (b >>> M) &&& ((1 <<< E) - 1) = (1 <<< E) - 1 ∧
            b &&& ((1 <<< M) - 1) = 0
        · rw [if_neg hia, if_pos hib, if_pos hib]
        · rw [if_neg hia, if_neg hib, if_neg hib, if_neg hia]
          by_cases hza : (a >>> M) &&& ((1 <<< E) - 1) = 0 ∧ a &&& ((1 <<< M) - 1) = 0 <;>
            by_cases hzb : (b >>> M) &&& ((1 <<< E) - 1) = 0 ∧ b &&& ((1 <<< M) - 1) = 0
          · have hz1 : ((a >>> M) &&& ((1 <<< E) - 1) = 0 ∧ a &&& ((1 <<< M) - 1) = 0) ∧
                ((b >>> M) &&& ((1 <<< E) - 1) = 0 ∧ b &&& ((1 <<< M) - 1) = 0) := ⟨hza, hzb⟩
            have hz2 : ((b >>> M) &&& ((1 <<< E) - 1) = 0 ∧ b &&& ((1 <<< M) - 1) = 0) ∧
                ((a >>> M) &&& ((1 <<< E) - 1) = 0 ∧ a &&& ((1 <<< M) - 1) = 0) := ⟨hzb, hza⟩
            rw [if_pos hz1, if_pos hz2,
              Nat.and_comm ((a >>> (E + M)) &&& 1) ((b >>> (E + M)) &&& 1)]
          · have hn1 : ¬(((a >>> M) &&& ((1 <<< E) - 1) = 0 ∧ a &&& ((1 <<< M) - 1) = 0) ∧
                ((b >>> M) &&& ((1 <<< E) - 1) = 0 ∧ b &&& ((1 <<< M) - 1) = 0)) :=
              fun hc => hzb hc.2
            have hn2 : ¬(((b >>> M) &&& ((1 <<< E) - 1) = 0 ∧ b &&& ((1 <<< M) - 1) = 0) ∧
                ((a >>> M) &&& ((1 <<< E) - 1) = 0 ∧ a &&& ((1 <<< M) - 1) = 0)) :=
              fun hc => hzb hc.1
            rw [if_neg hn1, if_neg hn2, if_pos hza, if_neg hzb, if_pos hza]
          · have hn1 : ¬(((a >>> M) &&& ((1 <<< E) - 1) = 0 ∧ a &&& ((1 <<< M) - 1) = 0) ∧
                ((b >>> M) &&& ((1 <<< E) - 1) = 0 ∧ b &&& ((1 <<< M) - 1) = 0)) :=
              fun hc => hza hc.1
            have hn2 : ¬(((b >>> M) &&& ((1 <<< E) - 1) = 0 ∧ b &&& ((1 <<< M) - 1) = 0) ∧
                ((a >>> M) &&& ((1 <<< E) - 1) = 0 ∧ a &&& ((1 <<< M) - 1) = 0)) :=
              fun hc => hza hc.2
            rw [if_neg hn1, if_neg hn2, if_neg hza, if_pos hzb, if_pos hzb]
          · have hn1 : ¬(((a >>> M) &&& ((1 <<< E) - 1) = 0 ∧ a &&& ((1 <<< M) - 1) = 0) ∧
                ((b >>> M) &&& ((1 <<< E) - 1) = 0 ∧ b &&& ((1 <<< M) - 1) = 0)) :=
              fun hc => hza hc.1
            have hn2 : ¬(((b >>> M) &&& ((1 <<< E) - 1) = 0 ∧ b &&& ((1 <<< M) - 1) = 0) ∧
                ((a >>> M) &&& ((1 <<< E) - 1) = 0 ∧ a &&& ((1 <<< M) - 1) = 0)) :=
              fun hc => hzb hc.1
            rw [if_neg hn1, if_neg hn2, if_neg hza, if_neg hzb, if_neg hzb, if_neg hza]
            obtain ⟨hm1, he1, hs1⟩ := alignAddSub_swap P
              ((a >>> (E + M)) &&& 1) (if (a >>> M) &&& ((1 <<< E) - 1) ≠ 0 then
                (((a >>> M) &&& ((1 <<< E) - 1) : Nat) : Int) else 1)
              (((if (a >>> M) &&& ((1 <<< E) - 1) ≠ 0 then 1 else 0) <<< M) |||
                (a &&& ((1 <<< M) - 1)))
              ((b >>> (E + M)) &&& 1) (if (b >>> M) &&& ((1 <<< E) - 1) ≠ 0 then
                (((b >>> M) &&& ((1 <<< E) - 1) : Nat) : Int) else 1)
              (((if (b >>> M) &&& ((1 <<< E) - 1) ≠ 0 then 1 else 0) <<< M) |||
                (b &&& ((1 <<< M) - 1)))
            by_cases hzm : (alignAddSub P
                ((a >>> (E + M)) &&& 1) (if (a >>> M) &&& ((1 <<< E) - 1) ≠ 0 then
                  (((a >>> M) &&& ((1 <<< E) - 1) : Nat) : Int) else 1)
                (((if (a >>> M) &&& ((1 <<< E) - 1) ≠ 0 then 1 else 0) <<< M) |||
                  (a &&& ((1 <<< M) - 1)))
                ((b >>> (E + M)) &&& 1) (if (b >>> M) &&& ((1 <<< E) - 1) ≠ 0 then
                  (((b >>> M) &&& ((1 <<< E) - 1) : Nat) : Int) else 1)
                (((if (b >>> M) &&& ((1 <<< E) - 1) ≠ 0 then 1 else 0) <<< M) |||
                  (b &&& ((1 <<< M) - 1)))).2.1 = 0
            · rw [if_pos hzm, if_pos (hm1.trans hzm)]
              by_cases hrm : rm = RNI ∧ (a >>> (E + M)) &&& 1 ≠ (b >>> (E + M)) &&& 1
              · rw [if_pos hrm, if_pos ⟨hrm.1, Ne.symm hrm.2⟩]
              · rw [if_neg hrm, if_neg (fun hc => hrm ⟨hc.1, Ne.symm hc.2⟩)]
            · rw [if_neg hzm, if_neg (fun hc => hzm (hm1.symm.trans hc))]
              rw [hm1, he1, hs1 hzm]

/-- C8 amended: the adder is commutative for all W-bit operands at every
width and mode; the multiplier is commutative except when both operands are
NaN, where the first NaN operand is propagated. -/
theorem add_mul_comm_amended :
    (∀ W a b rm : Nat, (W = 16 ∨ W = 32 ∨ W = 64) → a < 2 ^ W → b < 2 ^ W →
      fp_add W a b rm none = fp_add W b a rm none) ∧
    (∀ a b rm : Nat, ¬(isNaNPat 5 10 a ∧ isNaNPat 5 10 b) →
      fp_mul 16 a b rm = fp_mul 16 b a rm) ∧
    (∀ a b rm : Nat, ¬(isNaNPat 8 23 a ∧ isNaNPat 8 23 b) →
      fp_mul 32 a b rm = fp_mul 32 b a rm) ∧
    (∀ a b rm : Nat, ¬(isNaNPat 11 52 a ∧ isNaNPat 11 52 b) →
      fp_mul 64 a b rm = fp_mul 64 b a rm) := by
  refine ⟨?_, ?_, ?_, ?_⟩
  · intro W a b rm hW ha hb
    rcases hW with h | h | h <;> subst h
    · exact fp_add_dec_comm 5 10 32 a b rm ha hb
    · exact fp_add_dec_comm 8 23 7 a b rm ha hb
    · exact fp_add_dec_comm 11 52 7 a b rm ha hb
  · intro a b rm h
    have hn : ¬(isNaNPat 8 23 (cvt16to32 a) ∧ isNaNPat 8 23 (cvt16to32 b)) := by
      rcases not_and_or.mp h with h2 | h2
      · exact fun hc => cvt16to32_not_nan a h2 hc.1
      · exact fun hc => cvt16to32_not_nan b h2 hc.2
    have hc := npMul_comm 8 23 (cvt16to32 a) (cvt16to32 b) (by omega) hn
    rw [fp_mul_16_eq, fp_mul_16_eq]
    show round_fp32_to_fp16 (npMul 8 23 (cvt16to32 a) (cvt16to32 b)) rm =
      round_fp32_to_fp16 (npMul 8 23 (cvt16to32 b) (cvt16to32 a)) rm
    rw [hc]
  · intro a b rm h
    have hn : ¬(isNaNPat 11 52 (cvt32to64 a) ∧ isNaNPat 11 52 (cvt32to64 b)) := by
      rcases not_and_or.mp h with h2 | h2
      · exact fun hc => cvt32to64_not_nan a h2 hc.1
      · exact fun hc => cvt32to64_not_nan b h2 hc.2
    have hc := npMul_comm 11 52 (cvt32to64 a) (cvt32to64 b) (by omega) hn
    rw [fp_mul_32_eq, fp_mul_32_eq]
    show round_fp64_to_fp32 (npMul 11 52 (cvt32to64 a) (cvt32to64 b)) rm =
      round_fp64_to_fp32 (npMul 11 52 (cvt32to64 b) (cvt32to64 a)) rm
    rw [hc]
  · intro a b rm h
    rw [fp_mul_64_eq, fp_mul_64_eq]
    show npMul 11 52 a b = npMul 11 52 b a
    exact npMul_comm 11 52 a b (by omega) h

/-- Witness for the amended commutativity: a concrete addition both ways at
width 16 and a concrete multiplication with a single NaN operand. -/
theorem add_mul_comm_amended_witness :
    ((16 : Nat) = 16 ∨ (16 : Nat) = 32 ∨ (16 : Nat) = 64) ∧
    (0x3C00 : Nat) < 2 ^ 16 ∧ (0x4000 : Nat) < 2 ^ 16 ∧
    fp_add 16 0x3C00 0x4000 0 none = fp_add 16 0x4000 0x3C00 0 none ∧
    ¬(isNaNPat 5 10 0x3C00 ∧ isNaNPat 5 10 0xFE00) ∧
    fp_mul 16 0x3C00 0xFE00 0 = fp_mul 16 0xFE00 0x3C00 0 := by
  refine ⟨Or.inl rfl, by decide, by decide, ?_, by decide, ?_⟩
  · exact add_mul_comm_amended.1 16 0x3C00 0x4000 0 (Or.inl rfl) (by decide) (by decide)
  · exact add_mul_comm_amended.2.1 0x3C00 0xFE00 0 (by decide)

end HdlFp
